import Mathlib

/-!
Verification development for the token-resolution / history-fetch core of the
lovelace-echarts-raw-card repository.

The TypeScript sources are shallowly embedded:

* JavaScript numbers are modelled by `JSNum`: an exact rational for finite
  doubles plus explicit `nan` / `inf` / `ninf` tags.  Floating-point rounding
  is idealised away (every claim below only exercises arithmetic that is
  exact in doubles).
* Transcendental library functions (`Math.log`, `Math.sqrt`, `Math.pow` on
  positive arguments, `Number(string)`, `Date.parse`) are abstracted into a
  `JsEnv` record of uninterpreted functions; every theorem quantifies over
  the environment, and witnesses instantiate it concretely.
* JavaScript values are modelled by `JValue` (numbers, strings, booleans,
  `null`, `undefined`, arrays, objects-as-association-lists).
-/

/-- Model of a JavaScript number: a finite double (idealised as an exact
rational) or one of the non-finite values `NaN`, `Infinity`, `-Infinity`. -/
inductive JSNum : Type where
  | num (q : ℚ)
  | nan
  | inf
  | ninf
deriving DecidableEq

namespace JSNum

/-- Number.isFinite. -/
def isFinite : JSNum → Bool
  | num _ => true
  | _ => false

/-- JavaScript addition on numbers (finite part exact). -/
def add : JSNum → JSNum → JSNum
  | num a, num b => num (a + b)
  | nan, _ => nan
  | _, nan => nan
  | inf, ninf => nan
  | ninf, inf => nan
  | inf, _ => inf
  | _, inf => inf
  | ninf, _ => ninf
  | _, ninf => ninf

/-- JavaScript multiplication on numbers (finite part exact). -/
def mul : JSNum → JSNum → JSNum
  | num a, num b => num (a * b)
  | nan, _ => nan
  | _, nan => nan
  | inf, inf => inf
  | inf, ninf => ninf
  | ninf, inf => ninf
  | ninf, ninf => inf
  | inf, num b => if b = 0 then nan else if 0 < b then inf else ninf
  | num a, inf => if a = 0 then nan else if 0 < a then inf else ninf
  | ninf, num b => if b = 0 then nan else if 0 < b then ninf else inf
  | num a, ninf => if a = 0 then nan else if 0 < a then ninf else inf

/-- JavaScript division on numbers (finite part exact). -/
def div : JSNum → JSNum → JSNum
  | num a, num b =>
      if b = 0 then (if a = 0 then nan else if 0 < a then inf else ninf)
      else num (a / b)
  | nan, _ => nan
  | _, nan => nan
  | inf, inf => nan
  | inf, ninf => nan
  | ninf, inf => nan
  | ninf, ninf => nan
  | inf, num b => if 0 ≤ b then inf else ninf
  | ninf, num b => if 0 ≤ b then ninf else inf
  | num _, inf => num 0
  | num _, ninf => num 0

/-- Math.abs. -/
def jsAbs : JSNum → JSNum
  | num a => num |a|
  | nan => nan
  | inf => inf
  | ninf => inf

/-- Math.max on two numbers (NaN-absorbing, as in JavaScript). -/
def jsMax : JSNum → JSNum → JSNum
  | nan, _ => nan
  | _, nan => nan
  | inf, _ => inf
  | _, inf => inf
  | ninf, b => b
  | a, ninf => a
  | num a, num b => num (max a b)

/-- Math.min on two numbers (NaN-absorbing, as in JavaScript). -/
def jsMin : JSNum → JSNum → JSNum
  | nan, _ => nan
  | _, nan => nan
  | ninf, _ => ninf
  | _, ninf => ninf
  | inf, b => b
  | a, inf => a
  | num a, num b => num (min a b)

/-- Math.round: rounds half toward positive infinity, as in JavaScript. -/
def jsRound : JSNum → JSNum
  | num a => num (⌊a + 1/2⌋ : ℤ)
  | nan => nan
  | inf => inf
  | ninf => ninf

end JSNum

/-- Model of a JavaScript value, as far as the card's token machinery
inspects them.  Objects are association lists in insertion order. -/
inductive JValue : Type where
  | num (x : JSNum)
  | str (s : String)
  | bool (b : Bool)
  | null
  | undef
  | arr (xs : List JValue)
  | obj (fields : List (String × JValue))

/-- Abstracted JavaScript runtime functions.  `parseNumber` models
`Number(s)` on strings, `dateParse` models `Date.parse` (`none` = NaN),
`logFn`, `sqrtFn` and `powFn` model `Math.log`, `Math.sqrt` and `Math.pow`
on finite arguments where the result is a genuine real computation. -/
structure JsEnv : Type where
  parseNumber : String → JSNum
  dateParse : String → Option ℚ
  logFn : ℚ → ℚ
  sqrtFn : ℚ → ℚ
  powFn : ℚ → ℚ → JSNum
  numToString : JSNum → String
  compositeToString : JValue → String

/-- A trivial concrete environment, used by witnesses. -/
def trivEnv : JsEnv where
  parseNumber := fun _ => JSNum.nan
  dateParse := fun _ => none
  logFn := fun _ => 0
  sqrtFn := fun _ => 0
  powFn := fun _ _ => JSNum.num 0
  numToString := fun _ => ""
  compositeToString := fun _ => ""

/-- Coercion `Number(v)` of a JavaScript value to a number.  String parsing
is delegated to the environment; the exotic array/object coercions (via
`toString`) are modelled as NaN, which no claim exercises. -/
def jsToNum (env : JsEnv) : JValue → JSNum
  | JValue.num x => x
  | JValue.str s => env.parseNumber s
  | JValue.bool b => JSNum.num (if b then 1 else 0)
  | JValue.null => JSNum.num 0
  | JValue.undef => JSNum.nan
  | JValue.arr _ => JSNum.nan
  | JValue.obj _ => JSNum.nan

/-- JavaScript truthiness of a value. -/
def jsTruthy : JValue → Bool
  | JValue.num x => !(x = JSNum.num 0 || x = JSNum.nan)
  | JValue.str s => !(s = "")
  | JValue.bool b => b
  | JValue.null => false
  | JValue.undef => false
  | JValue.arr _ => true
  | JValue.obj _ => true

/-- Nullish coalescing `v ?? d` where `none` stands for an absent value:
JavaScript substitutes `d` for both `null` and `undefined`. -/
def nullishGetD (v : Option JValue) (d : JValue) : JValue :=
  match v with
  | none => d
  | some JValue.null => d
  | some JValue.undef => d
  | some x => x

/-! ## src/tokens/transforms.ts -/

/-- The `$map` transform stage (`src/types.ts` TokenMap). -/
inductive TokenMap : Type where
  | log (base add : Option ℚ)
  | sqrt
  | pow (p : ℚ)
deriving DecidableEq

/-- Coercion mode (`TokenObject["$coerce"]`). -/
inductive CoerceMode : Type where
  | auto
  | number
  | string
  | bool
deriving DecidableEq

/-- An `$entity` token object with its transform fields (`src/types.ts`
TokenObject).  Config-supplied numbers are modelled as finite rationals. -/
structure TokenObject : Type where
  entity : String
  attr : Option String := none
  coerce : Option CoerceMode := none
  default : Option JValue := none
  map : Option TokenMap := none
  abs : Bool := false
  scale : Option ℚ := none
  offset : Option ℚ := none
  min : Option ℚ := none
  max : Option ℚ := none
  clamp : Option (ℚ × ℚ) := none
  round : Option ℤ := none

/-- The `transforms` record of a `$data` / `$history` spec; same stages as
the token fields. -/
structure TransformsSpec : Type where
  map : Option TokenMap := none
  abs : Option Bool := none
  scale : Option ℚ := none
  offset : Option ℚ := none
  min : Option ℚ := none
  max : Option ℚ := none
  clamp : Option (ℚ × ℚ) := none
  round : Option ℤ := none
deriving DecidableEq

/-- coerceValue (src/tokens/transforms.ts lines 3-32). -/
def coerceValue (env : JsEnv) (raw : JValue) (mode : CoerceMode) : JValue :=
  match mode with
  | CoerceMode.string =>
      match raw with
      | JValue.null => JValue.str ""
      | JValue.undef => JValue.str ""
      | JValue.str s => JValue.str s
      | JValue.bool b => JValue.str (if b then "true" else "false")
      | JValue.num x => JValue.str (env.numToString x)
      | v => JValue.str (env.compositeToString v)
  | CoerceMode.bool =>
      match raw with
      | JValue.bool b => JValue.bool b
      -- NB: the source tests `raw !== 0`, so NaN coerces to true here.
      | JValue.num x => JValue.bool (!(x = JSNum.num 0))
      | JValue.str s0 =>
          let s := s0.toLower.trim
          if ["on", "true", "1", "yes", "home", "open"].contains s then JValue.bool true
          else if ["off", "false", "0", "no", "not_home", "closed"].contains s then
            JValue.bool false
          else JValue.bool (!(s = ""))
      | v => JValue.bool (jsTruthy v)
  | CoerceMode.number =>
      let n := match raw with
        | JValue.num x => x
        | v => jsToNum env v
      JValue.num (if n.isFinite then n else JSNum.nan)
  | CoerceMode.auto =>
      match raw with
      | JValue.num x => JValue.num x
      | JValue.bool b => JValue.bool b
      | JValue.str s0 =>
          let s := s0.trim
          if s = "" then JValue.str s0
          else
            let n := env.parseNumber s
            if n.isFinite then JValue.num n else JValue.str s0
      | v => v

/-- Math.log as used in the `$map` log stage: negative argument is NaN,
zero is -Infinity, positive arguments delegate to the environment. -/
def jsLog (env : JsEnv) (q : ℚ) : JSNum :=
  if q < 0 then JSNum.nan
  else if q = 0 then JSNum.ninf
  else JSNum.num (env.logFn q)

/-- applyNumberTransforms (src/tokens/transforms.ts lines 34-68).  The
stages run in source order: map, abs, scale, offset, min, max, clamp,
round.  Note: the source has no finiteness guard after the map stage, so a
non-finite map result flows on through the remaining stages. -/
def applyNumberTransforms (env : JsEnv) (value : JValue) (token : TokenObject) : JValue :=
  let x0 : JSNum := match value with
    | JValue.num x => x
    | v => jsToNum env v
  match x0 with
    | JSNum.num q =>
        let x1 : JSNum := match token.map with
          | none => JSNum.num q
          | some (TokenMap.log base0 add0) =>
              let base := base0.getD 10
              let add := add0.getD 1
              JSNum.div (jsLog env (q + add)) (jsLog env base)
          | some TokenMap.sqrt => if q < 0 then JSNum.num 0 else JSNum.num (env.sqrtFn q)
          | some (TokenMap.pow p) => env.powFn q p
        let x2 := if token.abs then x1.jsAbs else x1
        let x3 := match token.scale with
          | some s => x2.mul (JSNum.num s)
          | none => x2
        let x4 := match token.offset with
          | some o => x3.add (JSNum.num o)
          | none => x3
        let x5 := match token.min with
          | some m => JSNum.jsMax (JSNum.num m) x4
          | none => x4
        let x6 := match token.max with
          | some m => JSNum.jsMin (JSNum.num m) x5
          | none => x5
        let x7 := match token.clamp with
          | some (lo, hi) => JSNum.jsMin (JSNum.num hi) (JSNum.jsMax (JSNum.num lo) x6)
          | none => x6
        let x8 := match token.round with
          | some r =>
              let p : ℚ := (10 : ℚ) ^ r
              JSNum.div (x7.mul (JSNum.num p)).jsRound (JSNum.num p)
          | none => x7
        JValue.num x8
    -- a non-finite coerced input returns token.$default ?? value
    | _ => nullishGetD token.default value

/-- applyTransformsWithSpec (src/tokens/transforms.ts lines 70-95). -/
def applyTransformsWithSpec (env : JsEnv) (value : JValue) (entityId : String)
    (dflt : Option JValue) (coerce : Option CoerceMode)
    (transforms : Option TransformsSpec) : JValue :=
  let coerced := coerceValue env value (coerce.getD CoerceMode.auto)
  -- the source tests: typeof coerced === "number" && Number.isNaN(coerced)
  if coerced matches JValue.num JSNum.nan then nullishGetD dflt (JValue.num (JSNum.num 0))
  else
    let token : TokenObject :=
      { entity := entityId
        default := dflt
        coerce := coerce
        map := transforms.bind (·.map)
        abs := (transforms.bind (·.abs)).getD false
        scale := transforms.bind (·.scale)
        offset := transforms.bind (·.offset)
        min := transforms.bind (·.min)
        max := transforms.bind (·.max)
        clamp := transforms.bind (·.clamp)
        round := transforms.bind (·.round) }
    applyNumberTransforms env coerced token

/-- coerceHistoryPointNumber (src/tokens/transforms.ts lines 97-109):
coerce with effective mode defaulting to number, run the pipeline, and
require a finite numeric final value, else no value. -/
def coerceHistoryPointNumber (env : JsEnv) (raw : JValue) (entityId : String)
    (dflt : Option JValue) (coerce : Option CoerceMode)
    (transforms : Option TransformsSpec) : Option ℚ :=
  let coerceMode := coerce.getD CoerceMode.number
  let v := applyTransformsWithSpec env raw entityId dflt (some coerceMode) transforms
  let n := match v with
    | JValue.num x => x
    | w => jsToNum env w
  match n with
  | JSNum.num q => some q
  | _ => none

/-! ## src/tokens/entity.ts -/

/-- An entity spec: either a bare id string or an object with id and an
optional display-name override. -/
inductive EntitySpec : Type where
  | bare (id : String)
  | named (id : String) (name : Option String)
deriving DecidableEq

/-- Result of normalizeEntitySpec. -/
structure NormEntity : Type where
  id : String
  name : Option String
deriving DecidableEq

/-- normalizeEntitySpec (src/tokens/entity.ts lines 5-7). -/
def normalizeEntitySpec : EntitySpec → NormEntity
  | EntitySpec.bare i => ⟨i, none⟩
  | EntitySpec.named i n => ⟨i, n⟩

/-- A config-supplied time endpoint: an epoch-ms number or a date string. -/
abbrev TimeSpec := ℚ ⊕ String

/-- parseTime (src/tokens/entity.ts lines 24-29): numbers are returned
unchanged, strings go through Date.parse with the fallback on NaN. -/
def parseTime (env : JsEnv) (t : Option TimeSpec) (fallbackMs : ℚ) : ℚ :=
  match t with
  | none => fallbackMs
  | some (Sum.inl q) => q
  | some (Sum.inr s) => (env.dateParse s).getD fallbackMs

/-! ## src/history/decode.ts -/

/-- A loosely-typed history snapshot (HistoryStateLike), with the full,
short and minimal-response alias fields the decoder probes.  `none` covers
both an absent field and an explicit null for the `??` chains below. -/
structure Snapshot : Type where
  entity_id : Option String := none
  e : Option String := none
  idAlias : Option String := none
  state : Option JValue := none
  s : Option JValue := none
  st : Option JValue := none
  attributes : Option JValue := none
  a : Option JValue := none
  attrAlias : Option JValue := none
  last_changed : Option TimeSpec := none
  last_updated : Option TimeSpec := none
  lc : Option TimeSpec := none
  lu : Option TimeSpec := none
  c : Option TimeSpec := none
  u : Option TimeSpec := none
  ts : Option TimeSpec := none
  t : Option TimeSpec := none
  time_fired : Option TimeSpec := none

/-- Nullish chain step on JavaScript values (`x ?? y`). -/
def jvCoal (x y : JValue) : JValue :=
  match x with
  | JValue.null => y
  | JValue.undef => y
  | v => v

/-- View an optional field as a JavaScript value (absent = undefined). -/
def jvOf (o : Option JValue) : JValue := o.getD JValue.undef

/-- histEntityId (src/history/decode.ts lines 12-14). -/
def histEntityId (x : Snapshot) : Option String :=
  x.entity_id <|> x.e <|> x.idAlias

/-- histState (src/history/decode.ts lines 16-18). -/
def histState (x : Snapshot) : JValue :=
  jvCoal (jvOf x.state) (jvCoal (jvOf x.s) (jvOf x.st))

/-- histAttributes (src/history/decode.ts lines 20-23): object-typed
attribute bags become association lists; a (pathological) array passes the
typeof check but has no string keys, so it is modelled as an empty bag. -/
def histAttributes (x : Snapshot) : Option (List (String × JValue)) :=
  match jvCoal (jvOf x.attributes) (jvCoal (jvOf x.a) (jvOf x.attrAlias)) with
  | JValue.obj fs => some fs
  | JValue.arr _ => some []
  | _ => none

/-- histTimestampMs (src/history/decode.ts lines 25-45): probe the alias
fields in order; numbers below 1e12 are seconds and scaled by 1000; strings
go through Date.parse. -/
def histTimestampMs (env : JsEnv) (x : Snapshot) : Option ℚ :=
  match x.last_changed <|> x.last_updated <|> x.lc <|> x.lu <|> x.c
      <|> x.u <|> x.ts <|> x.t <|> x.time_fired with
  | none => none
  | some (Sum.inl q) => some (if q < 1000000000000 then q * 1000 else q)
  | some (Sum.inr str) => env.dateParse str

/-! ## src/history/lru-map.ts -/

/-- LruMap state: capacity and entries ordered oldest-first (JS Map
insertion order). -/
structure LruMap (K V : Type) : Type where
  maxSize : ℤ
  entries : List (K × V)

namespace LruMap

/-- The constructor (src/history/lru-map.ts lines 12-15): capacity below 1
throws. -/
def make (K V : Type) (maxSize : ℤ) : Except String (LruMap K V) :=
  if maxSize < 1 then Except.error "LruMap maxSize must be >= 1"
  else Except.ok ⟨maxSize, []⟩

variable {K V : Type} [DecidableEq K]

/-- Map#get on the backing map. -/
def findVal (m : LruMap K V) (k : K) : Option V :=
  (m.entries.find? (fun p => decide (p.1 = k))).map (·.2)

/-- size getter. -/
def size (m : LruMap K V) : ℕ := m.entries.length

/-- has (src/history/lru-map.ts lines 21-23); no recency side effect. -/
def has (m : LruMap K V) (k : K) : Bool := (m.findVal k).isSome

/-- Removal of a key from the entry list (Map#delete; the entry lists built
by the operations below never contain duplicate keys). -/
def removeKey (l : List (K × V)) (k : K) : List (K × V) :=
  l.filter (fun p => decide (¬p.1 = k))

/-- get (src/history/lru-map.ts lines 25-33): a hit re-inserts the entry at
the most-recent end; a miss changes nothing.  (The source detects a miss
by the value being undefined; stored values are never undefined in any
use of this class, so a miss coincides with key absence here.) -/
def get (m : LruMap K V) (k : K) : Option V × LruMap K V :=
  match m.findVal k with
  | none => (none, m)
  | some v => (some v, ⟨m.maxSize, removeKey m.entries k ++ [(k, v)]⟩)

/-- The eviction loop of set: drop the oldest entry while over capacity. -/
def evict : List (K × V) → ℤ → List (K × V)
  | [], _ => []
  | x :: xs, cap =>
      if cap < ((x :: xs).length : ℤ) then evict xs cap else x :: xs

/-- set (src/history/lru-map.ts lines 35-52): delete an existing binding,
append at the most-recent end, then evict the oldest entries while over
capacity. -/
def set (m : LruMap K V) (k : K) (v : V) : LruMap K V :=
  let l := if m.entries.any (fun p => decide (p.1 = k))
    then removeKey m.entries k else m.entries
  ⟨m.maxSize, evict (l ++ [(k, v)]) m.maxSize⟩

/-- delete (src/history/lru-map.ts lines 54-56). -/
def del (m : LruMap K V) (k : K) : LruMap K V :=
  ⟨m.maxSize, removeKey m.entries k⟩

/-- clear (src/history/lru-map.ts lines 58-60). -/
def clear (m : LruMap K V) : LruMap K V := ⟨m.maxSize, []⟩

end LruMap

/-! ## src/history/downsample.ts -/

/-- Downsampling method. -/
inductive DsMethod : Type where
  | mean
  | last
deriving DecidableEq

/-- Bucket index of a point (src/history/downsample.ts line 15):
min(maxPoints - 1, floor((t - firstT) / bucketSize)). -/
def dsBidx (firstT bucketSize : ℚ) (maxPoints : ℕ) (p : ℚ × α) : ℤ :=
  min ((maxPoints : ℤ) - 1) ⌊(p.1 - firstT) / bucketSize⌋

/-- Emission for one bucket (src/history/downsample.ts lines 20-40): one
point at the bucket's last timestamp, value the bucket's last value
(method last) or the mean of the finite numeric values, falling back to
the last value when none is numeric (method mean). -/
def dsEmit {α : Type} (num : α → JSNum) (ofNum : ℚ → α) (method : DsMethod) :
    List (ℚ × α) → Option (ℚ × α)
  | [] => none
  | b0 :: bs =>
      let b := b0 :: bs
      let blast := b.getLast (by simp)
      match method with
      | DsMethod.last => some (blast.1, blast.2)
      | DsMethod.mean =>
          let acc := b.foldl (fun (acc : ℚ × ℕ) pv =>
            match num pv.2 with
            | JSNum.num n => (acc.1 + n, acc.2 + 1)
            | _ => acc) (0, 0)
          if acc.2 = 0 then some (blast.1, blast.2)
          else some (blast.1, ofNum (acc.1 / (acc.2 : ℚ)))

/-- The bucketed output list before the preserve-last-point fixup
(src/history/downsample.ts lines 8-40): each of the maxPoints buckets
collects the points whose index maps to it, in input order, and each
non-empty bucket emits one point. -/
def dsOut {α : Type} (num : α → JSNum) (ofNum : ℚ → α) (p0 : ℚ × α)
    (rest : List (ℚ × α)) (maxPoints : ℕ) (method : DsMethod) : List (ℚ × α) :=
  (List.range maxPoints).filterMap (fun (i : ℕ) =>
    dsEmit num ofNum method
      ((p0 :: rest).filter (fun p => decide (dsBidx p0.1
        (max 1 (((p0 :: rest).getLast (by simp)).1 - p0.1) / (maxPoints : ℚ))
        maxPoints p = (i : ℤ)))))

/-- The non-trivial branch of downsample (src/history/downsample.ts lines
8-47): bucket and emit, then append the absolute last input point if the
last emitted timestamp differs. -/
def downsampleCore {α : Type} (num : α → JSNum) (ofNum : ℚ → α) (p0 : ℚ × α)
    (rest : List (ℚ × α)) (maxPoints : ℕ) (method : DsMethod) : List (ℚ × α) :=
  let lastP := (p0 :: rest).getLast (by simp)
  let out := dsOut num ofNum p0 rest maxPoints method
  match out.getLast? with
  | none => out
  | some ol => if ol.1 = lastP.1 then out else out ++ [lastP]

/-- downsample (src/history/downsample.ts).  The value type is generic
(the source uses `unknown`); `num` models the `Number(v)` coercion and
`ofNum` injects a computed mean back into the value type. -/
def downsample {α : Type} (num : α → JSNum) (ofNum : ℚ → α)
    (points : List (ℚ × α)) (maxPoints : ℕ) (method : DsMethod) :
    List (ℚ × α) :=
  if points.length ≤ maxPoints ∨ maxPoints ≤ 1 then points
  else
    match points with
    | [] => []
    | p0 :: rest => downsampleCore num ofNum p0 rest maxPoints method

/-! ## Home Assistant object model (src/ha-types.ts, as consumed here) -/

/-- Association-list lookup by string key (JS property access). -/
def assocFind {α : Type} (l : List (String × α)) (k : String) : Option α :=
  (l.find? (fun p => decide (p.1 = k))).map (·.2)

/-- Object.assign-style update of one field: replace in place if the key
exists, else append. -/
def assocSet (l : List (String × JValue)) (k : String) (v : JValue) :
    List (String × JValue) :=
  if l.any (fun p => decide (p.1 = k)) then
    l.map (fun p => if p.1 = k then (k, v) else p)
  else l ++ [(k, v)]

/-- Object.assign(base, overrides). -/
def objAssign (base : List (String × JValue)) (ov : List (String × JValue)) :
    List (String × JValue) :=
  ov.foldl (fun b p => assocSet b p.1 p.2) base

/-- Nullish coalescing on optional JavaScript values. -/
def optCoal (a b : Option JValue) : Option JValue :=
  match a with
  | none => b
  | some JValue.null => b
  | some JValue.undef => b
  | some v => some v

/-- A store entity (state string, attributes, last-update marker). -/
structure HassEntity : Type where
  state : String
  attributes : List (String × JValue)
  last_updated : String

/-- Statistics WebSocket query payload (recorder/statistics_during_period). -/
structure StatsQuery : Type where
  start_time : ℚ
  end_time : ℚ
  statistic_ids : List String
  period : String
  types : List String

/-- One pre-aggregated statistics row.  The row's ISO `start` is modelled
directly as its parsed epoch-ms value. -/
structure StatRecord : Type where
  startMs : ℚ
  mean : Option JSNum := none
  min : Option JSNum := none
  max : Option JSNum := none
  sum : Option JSNum := none
  change : Option JSNum := none
  state : Option JSNum := none

/-- The hass handle as consumed by the fetch engines: the entity store plus
the optional WebSocket capability (`callWS`); the history REST transport
(`callApi`) is passed to `fetchHistory` separately as `api`. -/
structure Hass : Type where
  states : List (String × HassEntity)
  callWS : Option (StatsQuery → List (String × List StatRecord)) := none

/-- Set<string>.add. -/
def setAdd (s : List String) (x : String) : List String :=
  if s.contains x then s else s ++ [x]

/-- friendly_name attribute of a store entity, when it is a string
(non-string friendly_name values are outside the model). -/
def friendlyNameOf (st : HassEntity) : Option String :=
  match assocFind st.attributes "friendly_name" with
  | some (JValue.str s) => some s
  | _ => none

/-! ## src/history/fetch.ts -/

/-- History output mode. -/
inductive HistoryMode : Type where
  | values
  | series
deriving DecidableEq

/-- name_from option. -/
inductive NameFrom : Type where
  | friendly_name
  | entity_id
deriving DecidableEq

/-- Sampling spec of a `$history` generator. -/
structure SampleSpec : Type where
  max_points : ℕ
  method : Option DsMethod := none
deriving DecidableEq

/-- A `$history` generator spec (src/types.ts HistoryGenerator).  `endTime`
models the reserved-word field `end`. -/
structure HistorySpec : Type where
  entities : Option (List EntitySpec) := none
  hours : Option ℚ := none
  start : Option TimeSpec := none
  endTime : Option TimeSpec := none
  mode : Option HistoryMode := none
  name_from : Option NameFrom := none
  attr : Option String := none
  coerce : Option CoerceMode := none
  dflt : Option JValue := none
  transforms : Option TransformsSpec := none
  series_type : Option String := none
  show_symbol : Option Bool := none
  sample : Option SampleSpec := none
  cache_seconds : Option ℚ := none
  minimal_response : Option Bool := none
  series_overrides : Option (List (String × JValue)) := none

/-- The composite history cache key (historyCacheKey, src/history/fetch.ts
lines 9-31).  The source joins the components into one string; here the
components are kept as a tuple (the string join is injective enough that no
claim distinguishes the two).  The `series_overrides` component is its
JSON.stringify image under the abstracted `stringifyJson`. -/
structure HistoryKey : Type where
  ids : String
  startMs : ℚ
  endMs : ℚ
  attr : String
  coerce : CoerceMode
  transforms : TransformsSpec
  mode : Option HistoryMode
  series_type : String
  sample : String
  overrides : String
  minimal : Bool
deriving DecidableEq

/-- Sample-spec key component: max_points and method joined. -/
def sampleKeyString (s : Option SampleSpec) : String :=
  match s with
  | none => ""
  | some ss =>
      toString ss.max_points ++ ":" ++
        (match ss.method.getD DsMethod.mean with
          | DsMethod.mean => "mean"
          | DsMethod.last => "last")

/-- historyCacheKey (src/history/fetch.ts lines 9-31). -/
def historyCacheKey (stringifyJson : JValue → String) (spec : HistorySpec)
    (startMs endMs : ℚ) : HistoryKey where
  ids := String.intercalate ","
    (((spec.entities.getD []).map (fun e => (normalizeEntitySpec e).id)))
  startMs := startMs
  endMs := endMs
  attr := spec.attr.getD ""
  coerce := spec.coerce.getD CoerceMode.number
  transforms := spec.transforms.getD {}
  mode := spec.mode
  series_type := spec.series_type.getD ""
  sample := sampleKeyString spec.sample
  overrides := match spec.series_overrides with
    | some o => stringifyJson (JValue.obj o)
    | none => ""
  minimal := spec.minimal_response.getD false

/-- A cache entry (type CacheEntry in src/history/fetch.ts). -/
structure CacheEntry : Type where
  ts : ℚ
  value : JValue
  expiresAt : ℚ

/-- The history cache: a Map<string, CacheEntry> in insertion order. -/
abbrev HistCache := List (HistoryKey × CacheEntry)

/-- Map#get. -/
def cacheGet (c : HistCache) (k : HistoryKey) : Option CacheEntry :=
  (c.find? (fun p => decide (p.1 = k))).map (·.2)

/-- Map#set: update in place or append. -/
def cacheSet (c : HistCache) (k : HistoryKey) (v : CacheEntry) : HistCache :=
  if c.any (fun p => decide (p.1 = k)) then
    c.map (fun p => if p.1 = k then (k, v) else p)
  else c ++ [(k, v)]

/-- Per-entity accumulated points, in entity order. -/
abbrev PerEntity := List (String × List (ℚ × ℚ))

/-- perEntity initialisation: one empty list per requested entity id. -/
def peInit (ids : List String) : PerEntity := ids.map (fun i => (i, []))

/-- perEntity[id].push(pt). -/
def pePush (pe : PerEntity) (id : String) (pt : ℚ × ℚ) : PerEntity :=
  pe.map (fun e => if e.1 = id then (e.1, e.2 ++ [pt]) else e)

/-- The raw value extracted from a snapshot: the requested attribute if
the spec names one (undefined when absent), else the state
(src/history/fetch.ts line 150). -/
def snapshotRaw (spec : HistorySpec) (s : Snapshot) : JValue :=
  match spec.attr with
  | some attName =>
      match histAttributes s with
      | some attrs => jvOf (assocFind attrs attName)
      | none => JValue.undef
  | none => histState s

/-- Decode one snapshot inside one response array: resolve the entity id
(falling back to the array head's id), the timestamp, the raw value
(attribute or state) and the coerced number; skip the snapshot when any of
these fails (src/history/fetch.ts lines 143-155). -/
def decodeStep (env : JsEnv) (spec : HistorySpec) (arrEntityId : Option String)
    (pe : PerEntity) (s : Snapshot) : PerEntity :=
  match histEntityId s <|> arrEntityId with
  | none => pe
  | some id =>
      if id = "" then pe
      else match assocFind pe id with
        | none => pe
        | some _ =>
            match histTimestampMs env s with
            | none => pe
            | some ts =>
                match coerceHistoryPointNumber env (snapshotRaw spec s) id
                    spec.dflt spec.coerce spec.transforms with
                | none => pe
                | some n => pePush pe id (ts, n)

/-- The response decode loop (src/history/fetch.ts lines 138-156). -/
def decodeLoop (env : JsEnv) (spec : HistorySpec) (hist : List (List Snapshot))
    (pe0 : PerEntity) : PerEntity :=
  hist.foldl (fun pe arr =>
    match arr with
    | [] => pe
    | a0 :: _ => arr.foldl (decodeStep env spec (histEntityId a0)) pe) pe0

/-- A [timestamp, value] pair as a JavaScript value. -/
def pairToJV (p : ℚ × ℚ) : JValue :=
  JValue.arr [JValue.num (JSNum.num p.1), JValue.num (JSNum.num p.2)]

/-- Result of a fetchHistory invocation: the resolved value, the updated
cache, whether the underlying history API was queried, and the updated
watched-entity set. -/
structure FetchResult : Type where
  value : JValue
  cache : HistCache
  called : Bool
  watched : List String

/-- Derived end of the history time range (src/history/fetch.ts lines
56-62): an implicit end is "now" bucketed down to a multiple of
cache_seconds, an explicit end goes through parseTime. -/
def historyEndMs (env : JsEnv) (spec : HistorySpec) (nowMs : ℚ) : ℚ :=
  let cacheSeconds := spec.cache_seconds.getD 30
  let end0 := parseTime env spec.endTime nowMs
  if spec.endTime matches none then
    let bucket := max 1 cacheSeconds * 1000
    (⌊end0 / bucket⌋ : ℚ) * bucket
  else end0

/-- Derived start of the history time range (src/history/fetch.ts lines
64-67): explicit start via parseTime (fallback end - 24h), else
end - hours (default 24) in ms. -/
def historyStartMs (env : JsEnv) (spec : HistorySpec) (endMs : ℚ) : ℚ :=
  match spec.start with
  | some t => parseTime env (some t) (endMs - 24 * 3600000)
  | none => endMs - spec.hours.getD 24 * 3600000

/-- fetchHistory (src/history/fetch.ts lines 49-208).  `api` models the
`hass.callApi` history/period request, taking the start and end epoch-ms
(the source passes their ISO renderings), the minimal_response flag and
the single comma-joined filter_entity_id string.  The non-finite time-range
guard of the source cannot fire here because config times are modelled as
(finite) rationals. -/
def fetchHistory (env : JsEnv) (stringifyJson : JValue → String) (hass : Hass)
    (spec : HistorySpec) (watched0 : List String) (cache : HistCache)
    (nowMs : ℚ) (api : ℚ → ℚ → Bool → String → List (List Snapshot)) :
    FetchResult :=
  let cacheSeconds := spec.cache_seconds.getD 30
  let endMs := historyEndMs env spec nowMs
  let startMs := historyStartMs env spec endMs
  let watched := (spec.entities.getD []).foldl
    (fun w e => setAdd w (normalizeEntitySpec e).id) watched0
  let cacheKey := historyCacheKey stringifyJson spec startMs endMs
  match cacheGet cache cacheKey with
  | some cached =>
      if nowMs < cached.expiresAt then
        ⟨cached.value, cache, false, watched⟩
      else
        fetchHistoryMiss env hass spec watched cache nowMs api cacheSeconds
          startMs endMs cacheKey
  | none =>
      fetchHistoryMiss env hass spec watched cache nowMs api cacheSeconds
        startMs endMs cacheKey
where
  /-- The cache-miss path: query, decode, sort, downsample, shape, cache. -/
  fetchHistoryMiss (env : JsEnv) (hass : Hass) (spec : HistorySpec)
      (watched : List String) (cache : HistCache) (nowMs : ℚ)
      (api : ℚ → ℚ → Bool → String → List (List Snapshot))
      (cacheSeconds startMs endMs : ℚ) (cacheKey : HistoryKey) : FetchResult :=
    let entityIds := (spec.entities.getD []).map (fun e => (normalizeEntitySpec e).id)
    let hist := api startMs endMs (spec.minimal_response.getD false)
      (String.intercalate "," entityIds)
    let nameFrom := spec.name_from.getD NameFrom.friendly_name
    let seriesType := spec.series_type.getD "line"
    let showSymbol := spec.show_symbol.getD false
    let idToName : List (String × String) := (spec.entities.getD []).map (fun raw =>
      let ne := normalizeEntitySpec raw
      let st := assocFind hass.states ne.id
      let displayName := ne.name.getD (match nameFrom with
        | NameFrom.entity_id => ne.id
        | NameFrom.friendly_name => (st.bind friendlyNameOf).getD ne.id)
      (ne.id, displayName))
    let pe1 := decodeLoop env spec hist (peInit entityIds)
    let pe2 : PerEntity := pe1.map (fun e =>
      (e.1, e.2.mergeSort (fun a b => decide (a.1 ≤ b.1))))
    let pe3 : PerEntity := match spec.sample with
      | some ss =>
          if 1 < ss.max_points then
            pe2.map (fun e =>
              (e.1, downsample (fun q => JSNum.num q) (fun q => q) e.2
                ss.max_points (ss.method.getD DsMethod.mean)))
          else pe2
      | none => pe2
    let inferredMode := spec.mode.getD
      (if 1 < entityIds.length then HistoryMode.series else HistoryMode.values)
    let result : JValue := match inferredMode with
      | HistoryMode.values =>
          match entityIds with
          | [] => JValue.arr []
          | id :: _ => JValue.arr (((assocFind pe3 id).getD []).map pairToJV)
      | HistoryMode.series =>
          JValue.arr (entityIds.map (fun id =>
            let displayName := (assocFind idToName id).getD id
            let base : List (String × JValue) :=
              [("name", JValue.str displayName),
               ("type", JValue.str seriesType),
               ("showSymbol", JValue.bool showSymbol),
               ("data", JValue.arr (((assocFind pe3 id).getD []).map pairToJV))]
            let ovByName := spec.series_overrides.bind (fun o => assocFind o displayName)
            let ovById := spec.series_overrides.bind (fun o => assocFind o id)
            match optCoal ovByName ovById with
            | some (JValue.obj fs) => JValue.obj (objAssign base fs)
            | _ => JValue.obj base))
    let cache2 := cacheSet cache cacheKey
      ⟨nowMs, result, nowMs + cacheSeconds * 1000⟩
    ⟨result, cache2, true, watched⟩

/-! ## src/statistics/fetch.ts -/

/-- Requested statistic column. -/
inductive StatType : Type where
  | mean
  | min
  | max
  | sum
  | change
  | state
deriving DecidableEq

/-- Statistics output mode. -/
inductive StatsMode : Type where
  | values
  | series
  | pairs
deriving DecidableEq

/-- A `$statistics` generator spec (src/types.ts StatisticsGenerator). -/
structure StatsSpec : Type where
  entities : Option (List EntitySpec) := none
  period : Option String := none
  stat_type : Option StatType := none
  days : Option ℚ := none
  start : Option TimeSpec := none
  endTime : Option TimeSpec := none
  mode : Option StatsMode := none
  series_type : Option String := none
  name_from : Option NameFrom := none
  cache_seconds : Option ℚ := none
  series_overrides : Option (List (String × JValue)) := none

/-- The statistics cache key (statisticsCacheKey, src/statistics/fetch.ts
lines 33-49); components kept as a tuple, ISO timestamps as their epoch-ms
values. -/
structure StatsKey : Type where
  ids : String
  startMs : ℚ
  endMs : ℚ
  period : String
  stat_type : StatType
  mode : Option StatsMode
  series_type : String
  overrides : String
deriving DecidableEq

/-- statisticsCacheKey (src/statistics/fetch.ts lines 33-49). -/
def statisticsCacheKey (stringifyJson : JValue → String) (spec : StatsSpec)
    (startMs endMs : ℚ) : StatsKey where
  ids := String.intercalate ","
    ((spec.entities.getD []).map (fun e => (normalizeEntitySpec e).id))
  startMs := startMs
  endMs := endMs
  period := spec.period.getD "day"
  stat_type := spec.stat_type.getD StatType.change
  mode := spec.mode
  series_type := spec.series_type.getD ""
  overrides := stringifyJson (JValue.obj (spec.series_overrides.getD []))

/-- The statistics cache. -/
abbrev StatsCache := List (StatsKey × CacheEntry)

/-- Map#get for the statistics cache. -/
def statsCacheGet (c : StatsCache) (k : StatsKey) : Option CacheEntry :=
  (c.find? (fun p => decide (p.1 = k))).map (·.2)

/-- Map#set for the statistics cache. -/
def statsCacheSet (c : StatsCache) (k : StatsKey) (v : CacheEntry) : StatsCache :=
  if c.any (fun p => decide (p.1 = k)) then
    c.map (fun p => if p.1 = k then (k, v) else p)
  else c ++ [(k, v)]

/-- The wire name of a statistic column. -/
def statTypeName : StatType → String
  | StatType.mean => "mean"
  | StatType.min => "min"
  | StatType.max => "max"
  | StatType.sum => "sum"
  | StatType.change => "change"
  | StatType.state => "state"

/-- Projection rec[statType]. -/
def statField (rec : StatRecord) : StatType → Option JSNum
  | StatType.mean => rec.mean
  | StatType.min => rec.min
  | StatType.max => rec.max
  | StatType.sum => rec.sum
  | StatType.change => rec.change
  | StatType.state => rec.state

/-- Math.round(v * 100) / 100. -/
def round2 (v : ℚ) : ℚ := ((⌊v * 100 + 1/2⌋ : ℤ) : ℚ) / 100

/-- Result of a fetchStatistics invocation: an error result models the
thrown missing-callWS error (rejecting the promise). -/
structure StatsFetchResult : Type where
  result : Except String JValue
  cache : StatsCache
  called : Bool
  watched : List String

/-- fetchStatistics (src/statistics/fetch.ts lines 63-182): bucket the end
time for cache stability, check the cache, throw if hass.callWS is missing,
else query, extract the requested column per row (skipping null and
non-finite values, rounding to 2 decimals) and shape by mode. -/
def fetchStatistics (env : JsEnv) (stringifyJson : JValue → String) (hass : Hass)
    (spec : StatsSpec) (watched0 : List String) (cache : StatsCache)
    (nowMs : ℚ) : StatsFetchResult :=
  let cacheSeconds := spec.cache_seconds.getD 300
  let period := spec.period.getD "day"
  let statType := spec.stat_type.getD StatType.change
  let days := spec.days.getD 14
  let seriesType := spec.series_type.getD "bar"
  let nameFrom := spec.name_from.getD NameFrom.friendly_name
  let end0 := match spec.endTime with
    | some e => parseTime env (some e) nowMs
    | none => nowMs
  let bucket := max 1 cacheSeconds * 1000
  let endMs := (⌊end0 / bucket⌋ : ℚ) * bucket
  let startMs := match spec.start with
    | some t => parseTime env (some t) (endMs - days * 86400000)
    | none => endMs - days * 86400000
  let entityIds := (spec.entities.getD []).map (fun e => (normalizeEntitySpec e).id)
  let watched := entityIds.foldl setAdd watched0
  let key := statisticsCacheKey stringifyJson spec startMs endMs
  let hit := match statsCacheGet cache key with
    | some cached => if nowMs < cached.expiresAt then some cached.value else none
    | none => none
  match hit with
  | some v => ⟨Except.ok v, cache, false, watched⟩
  | none =>
      match hass.callWS with
      | none =>
          ⟨Except.error
            "[echarts-raw-card] $statistics requires hass.callWS — ensure HA version >= 2023.8",
            cache, false, watched⟩
      | some ws =>
          let response := ws ⟨startMs, endMs, entityIds, period, [statTypeName statType]⟩
          let idToName : List (String × String) := (spec.entities.getD []).map (fun raw =>
            let ne := normalizeEntitySpec raw
            let st := assocFind hass.states ne.id
            let displayName := ne.name.getD (match nameFrom with
              | NameFrom.entity_id => ne.id
              | NameFrom.friendly_name => (st.bind friendlyNameOf).getD ne.id)
            (ne.id, displayName))
          let perEntity : PerEntity := entityIds.map (fun id =>
            let records := (assocFind response id).getD []
            (id, records.foldl (fun acc rec =>
              match statField rec statType with
              | some (JSNum.num v) => acc ++ [(rec.startMs, round2 v)]
              | _ => acc) []))
          let inferredMode := spec.mode.getD
            (if 1 < entityIds.length then StatsMode.series else StatsMode.values)
          let result : JValue := match inferredMode with
            | StatsMode.values =>
                match entityIds with
                | [] => JValue.arr []
                | id :: _ => JValue.arr (((assocFind perEntity id).getD []).map pairToJV)
            | StatsMode.pairs =>
                JValue.arr (entityIds.map (fun id =>
                  let displayName := (assocFind idToName id).getD id
                  let total := ((assocFind perEntity id).getD []).foldl
                    (fun s p => s + p.2) 0
                  JValue.obj [("name", JValue.str displayName),
                    ("value", JValue.num (JSNum.num (round2 total)))]))
            | StatsMode.series =>
                JValue.arr (entityIds.map (fun id =>
                  let displayName := (assocFind idToName id).getD id
                  let base : List (String × JValue) :=
                    [("name", JValue.str displayName),
                     ("type", JValue.str seriesType),
                     ("data", JValue.arr (((assocFind perEntity id).getD []).map pairToJV))]
                  let ovByName := spec.series_overrides.bind
                    (fun o => assocFind o displayName)
                  let ovById := spec.series_overrides.bind (fun o => assocFind o id)
                  match optCoal ovByName ovById with
                  | some (JValue.obj fs) => JValue.obj (objAssign base fs)
                  | _ => JValue.obj base))
          let cache2 := statsCacheSet cache key ⟨nowMs, result, nowMs + cacheSeconds * 1000⟩
          ⟨Except.ok result, cache2, true, watched⟩

/-! ## The option tree and src/tokens/guards.ts -/

/-- `$data` bulk-extraction output mode. -/
inductive DataMode : Type where
  | pairs
  | names
  | values
deriving DecidableEq

/-- `$data` sort option (`none` in the source config). -/
inductive SortDir : Type where
  | nosort
  | asc
  | desc
deriving DecidableEq

/-- A `$data` generator spec (src/types.ts DataGenerator). -/
structure DataSpec : Type where
  entities : Option (List EntitySpec) := none
  exclude_unavailable : Option Bool := none
  include_unavailable : Option Bool := none
  exclude_zero : Option Bool := none
  sort : Option SortDir := none
  limit : Option ℚ := none
  mode : Option DataMode := none
  name_from : Option NameFrom := none
  attr : Option String := none
  coerce : Option CoerceMode := none
  dflt : Option JValue := none
  transforms : Option TransformsSpec := none

/-- A configuration (option) tree node.  An object node carries its four
possible reserved generator keys (`$history`, `$statistics`, `$data`,
`$entity`) as typed optional payloads, plus its remaining fields; the
structural guards test key presence exactly as `"$history" in v` does, so
a node may carry several reserved keys at once. -/
inductive Node : Type where
  | prim (v : JValue)
  | arr (xs : List Node)
  | obj (hist : Option HistorySpec) (stat : Option StatsSpec)
      (data : Option DataSpec) (tok : Option TokenObject)
      (fields : List (String × Node))

/-- isHistoryGenerator (guards: non-array object with a `$history` key). -/
def isHistoryGenerator : Node → Bool
  | Node.obj (some _) _ _ _ _ => true
  | _ => false

/-- isDataGenerator (guards: non-array object with a `$data` key). -/
def isDataGenerator : Node → Bool
  | Node.obj _ _ (some _) _ _ => true
  | _ => false

/-- isTokenObject (guards: non-array object with an `$entity` key). -/
def isTokenObject : Node → Bool
  | Node.obj _ _ _ (some _) _ => true
  | _ => false

/-- Modelled from the spec: `isStatisticsGenerator` is imported from
`src/tokens/guards.ts` by the resolver and asserted by
tests/tokens-guards.test.ts, but its definition is missing from the
snapshot of that file; per the spec's generator grammar it recognises a
non-array object carrying the `$statistics` reserved key. -/
def isStatisticsGenerator : Node → Bool
  | Node.obj _ (some _) _ _ _ => true
  | _ => false

/-- containsHistoryToken (src/tokens/guards.ts as shipped, lines 15-23):
true iff a `$history` generator is reachable through arrays and object
values.  NOTE: this shipped version does NOT recognise `$statistics`
generators.  (Generator payloads contain no tree nodes in this model, so
the JS descent into reserved-key values is a no-op here.) -/
def containsHistoryToken : Node → Bool
  | Node.prim _ => false
  | Node.arr xs => containsHistoryTokenList xs
  | Node.obj h _ _ _ fields => h.isSome || containsHistoryTokenFields fields
where
  containsHistoryTokenList : List Node → Bool
    | [] => false
    | x :: xs => containsHistoryToken x || containsHistoryTokenList xs
  containsHistoryTokenFields : List (String × Node) → Bool
    | [] => false
    | f :: fs => containsHistoryToken f.2 || containsHistoryTokenFields fs

/-! ## src/history/cache-ttl.ts -/

/-- Fold a candidate into the running minimum (`Infinity` = `none`). -/
def optMin (acc : Option ℚ) (q : ℚ) : Option ℚ :=
  match acc with
  | none => some q
  | some a => some (min a q)

/-- The walk of minHistoryCacheSecondsInOptionTree: on a `$history`
generator record a positive cache_seconds and do not descend; otherwise
descend arrays and object values.  NOTE: as shipped it ignores
`$statistics` generators entirely. -/
def minCacheWalk : Node → Option ℚ → Option ℚ
  | Node.prim _, acc => acc
  | Node.arr xs, acc => minCacheWalkList xs acc
  | Node.obj (some h) _ _ _ _, acc =>
      match h.cache_seconds with
      | some cs => if 0 < cs then optMin acc cs else acc
      | none => acc
  | Node.obj none _ _ _ fields, acc => minCacheWalkFields fields acc
where
  minCacheWalkList : List Node → Option ℚ → Option ℚ
    | [], acc => acc
    | x :: xs, acc => minCacheWalkList xs (minCacheWalk x acc)
  minCacheWalkFields : List (String × Node) → Option ℚ → Option ℚ
    | [], acc => acc
    | f :: fs, acc => minCacheWalkFields fs (minCacheWalk f.2 acc)

/-- minHistoryCacheSecondsInOptionTree (src/history/cache-ttl.ts). -/
def minHistoryCacheSecondsInOptionTree (tree : Node) (fallback : ℚ := 30) : ℚ :=
  (minCacheWalk tree none).getD fallback

/-! ## src/tokens/resolve.ts -/

/-- A row accumulated by the `$data` branch. -/
structure DataRow : Type where
  id : String
  name : String
  value : JValue
  num : Option ℚ

/-- Ascending comparator of the `$data` sort: rows without a numeric value
key as +Infinity (the source comparator is `(a.num ?? Infinity) -
(b.num ?? Infinity)`). -/
def rowAscLe (a b : DataRow) : Bool :=
  match a.num, b.num with
  | none, none => true
  | none, some _ => false
  | some _, none => true
  | some x, some y => decide (x ≤ y)

/-- Descending comparator of the `$data` sort: rows without a numeric value
key as -Infinity (the source comparator is `(b.num ?? -Infinity) -
(a.num ?? -Infinity)`). -/
def rowDescLe (a b : DataRow) : Bool :=
  match a.num, b.num with
  | none, none => true
  | none, some _ => false
  | some _, none => true
  | some x, some y => decide (y ≤ x)

/-- The `$data` branch of the resolver (src/tokens/resolve.ts lines
60-111), as a pure function of the store. -/
def resolveData (env : JsEnv) (hass : Option Hass) (spec : DataSpec) : JValue :=
  let excludeUnavailable := spec.exclude_unavailable.getD true
  let includeLegacy := spec.include_unavailable.getD false
  let excludeZero := spec.exclude_zero.getD false
  let sort := spec.sort.getD SortDir.nosort
  let mode := spec.mode.getD DataMode.pairs
  let nameFrom := spec.name_from.getD NameFrom.friendly_name
  let rows : List DataRow := (spec.entities.getD []).foldl (fun rows rawSpec =>
    let ne := normalizeEntitySpec rawSpec
    let st := hass.bind (fun h => assocFind h.states ne.id)
    let unavailable := match st with
      | none => true
      | some e => e.state = "unavailable" || e.state = "unknown"
    let skip :=
      if unavailable then
        if (excludeUnavailable && !includeLegacy) || st.isNone then true
        else if !includeLegacy then true
        else false
      else false
    if skip then rows
    else
      let displayName := ne.name.getD (match nameFrom with
        | NameFrom.entity_id => ne.id
        | NameFrom.friendly_name => (st.bind friendlyNameOf).getD ne.id)
      let raw := match spec.attr with
        | some attName => jvOf (st.bind (fun e => assocFind e.attributes attName))
        | none => match st with
          | some e => JValue.str e.state
          | none => JValue.undef
      let value := applyTransformsWithSpec env raw ne.id spec.dflt spec.coerce
        spec.transforms
      let n := match value with
        | JValue.num x => x
        | v => jsToNum env v
      let numq := match n with
        | JSNum.num q => some q
        | _ => none
      if excludeZero && numq = some 0 then rows
      else rows ++ [⟨ne.id, displayName, value, numq⟩]) []
  let sorted := match sort with
    | SortDir.asc => rows.mergeSort rowAscLe
    | SortDir.desc => rows.mergeSort rowDescLe
    | SortDir.nosort => rows
  let sliced := match spec.limit with
    | some l => if 0 < l then sorted.take ⌊l⌋.toNat else sorted
    | none => sorted
  match mode with
  | DataMode.names => JValue.arr (sliced.map (fun r => JValue.str r.name))
  | DataMode.values => JValue.arr (sliced.map (·.value))
  | DataMode.pairs => JValue.arr (sliced.map (fun r =>
      JValue.obj [("name", JValue.str r.name), ("value", r.value)]))

/-- The `$entity` branch of the resolver (src/tokens/resolve.ts lines
115-125), as a pure function of the store (the watched-set registration is
handled by the caller). -/
def resolveEntityToken (env : JsEnv) (hass : Option Hass) (tok : TokenObject) :
    JValue :=
  match hass.bind (fun h => assocFind h.states tok.entity) with
  | none => jvOf tok.default
  | some st =>
      let raw := match tok.attr with
        | some attName => jvOf (assocFind st.attributes attName)
        | none => JValue.str st.state
      let coerced := coerceValue env raw (tok.coerce.getD CoerceMode.auto)
      applyNumberTransforms env coerced tok

/-- State threaded through a resolution run: the watched-entity set plus
the fetcher-private state `σ` (used by theorems to count fetcher calls). -/
structure RunSt (σ : Type) : Type where
  watched : List String
  fx : σ

/-- Register a generator's entity ids in the watched set. -/
def addWatched (w : List String) (es : Option (List EntitySpec)) : List String :=
  (es.getD []).foldl (fun w e => setAdd w (normalizeEntitySpec e).id) w

/-- deepResolveTokensAsync (src/tokens/resolve.ts lines 35-143).  The
dispatch order is the source's if-chain: `$history`, then `$statistics`
(resolving to an empty array when no statistics fetcher is supplied), then
`$data`, then `$entity`, then structural recursion into arrays and plain
objects.  Fetchers are abstract state-passing functions whose `Except`
result models an awaited promise (an error rejects the whole resolution,
leaving the watched set as mutated so far). -/
def deepResolve {σ : Type} (env : JsEnv) (hass : Option Hass)
    (fh : HistorySpec → σ → Except String JValue × σ)
    (fs : Option (StatsSpec → σ → Except String JValue × σ)) :
    Node → RunSt σ → Except String JValue × RunSt σ
  | Node.prim v, st => (Except.ok v, st)
  | Node.obj (some hspec) _ _ _ _, st =>
      let w := addWatched st.watched hspec.entities
      let (r, fx2) := fh hspec st.fx
      (r, ⟨w, fx2⟩)
  | Node.obj none (some sspec) _ _ _, st =>
      let w := addWatched st.watched sspec.entities
      match fs with
      | none => (Except.ok (JValue.arr []), ⟨w, st.fx⟩)
      | some f =>
          let (r, fx2) := f sspec st.fx
          (r, ⟨w, fx2⟩)
  | Node.obj none none (some dspec) _ _, st =>
      let w := addWatched st.watched dspec.entities
      (Except.ok (resolveData env hass dspec), ⟨w, st.fx⟩)
  | Node.obj none none none (some tok) _, st =>
      let w := setAdd st.watched tok.entity
      (Except.ok (resolveEntityToken env hass tok), ⟨w, st.fx⟩)
  | Node.arr xs, st =>
      let (r, st2) := deepResolveList env hass fh fs xs st
      (r.map JValue.arr, st2)
  | Node.obj none none none none fields, st =>
      let (r, st2) := deepResolveFields env hass fh fs fields st
      (r.map JValue.obj, st2)
where
  /-- Sequential resolution of array elements; an error aborts the loop. -/
  deepResolveList (env : JsEnv) (hass : Option Hass)
      (fh : HistorySpec → σ → Except String JValue × σ)
      (fs : Option (StatsSpec → σ → Except String JValue × σ)) :
      List Node → RunSt σ → Except String (List JValue) × RunSt σ
    | [], st => (Except.ok [], st)
    | x :: xs, st =>
        match deepResolve env hass fh fs x st with
        | (Except.error e, st2) => (Except.error e, st2)
        | (Except.ok v, st2) =>
            match deepResolveList env hass fh fs xs st2 with
            | (Except.error e, st3) => (Except.error e, st3)
            | (Except.ok vs, st3) => (Except.ok (v :: vs), st3)
  /-- Sequential resolution of object fields; an error aborts the loop. -/
  deepResolveFields (env : JsEnv) (hass : Option Hass)
      (fh : HistorySpec → σ → Except String JValue × σ)
      (fs : Option (StatsSpec → σ → Except String JValue × σ)) :
      List (String × Node) → RunSt σ →
        Except String (List (String × JValue)) × RunSt σ
    | [], st => (Except.ok [], st)
    | f :: fsl, st =>
        match deepResolve env hass fh fs f.2 st with
        | (Except.error e, st2) => (Except.error e, st2)
        | (Except.ok v, st2) =>
            match deepResolveFields env hass fh fs fsl st2 with
            | (Except.error e, st3) => (Except.error e, st3)
            | (Except.ok vs, st3) => (Except.ok ((f.1, v) :: vs), st3)

/-- Response snapshots annotated with their array head's entity id (the
compressed-representation fallback), flattened in decode order. -/
def annotateHist (hist : List (List Snapshot)) : List (Option String × Snapshot) :=
  hist.foldr (fun arr acc =>
    (match arr with
      | [] => []
      | a0 :: _ => arr.map (fun s => (histEntityId a0, s))) ++ acc) []

/-- Declarative description of what one annotated snapshot contributes to
the series of entity `id`: `none` (discarded) unless the snapshot's
resolved entity id is a present, non-empty id equal to `id`, a timestamp
resolves, and coerceHistoryPointNumber yields a finite number. -/
def decodePointOf (env : JsEnv) (spec : HistorySpec) (present : String → Bool)
    (id : String) (annotated : Option String × Snapshot) : Option (ℚ × ℚ) :=
  match histEntityId annotated.2 <|> annotated.1 with
  | none => none
  | some sid =>
      if sid = "" then none
      else if present sid = false then none
      else if sid = id then
        match histTimestampMs env annotated.2 with
        | none => none
        | some ts =>
            match coerceHistoryPointNumber env (snapshotRaw spec annotated.2) sid
                spec.dflt spec.coerce spec.transforms with
            | none => none
            | some n => some (ts, n)
      else none

/-! ## LRU operation sequences (for the C2 invariant) -/

/-- An LruMap operation. -/
inductive LruOp (K V : Type) : Type where
  | get (k : K)
  | set (k : K) (v : V)
  | del (k : K)
  | clear
  | has (k : K)
  | size

/-- One implementation step (has and size are pure reads). -/
def lruStepImpl {K V : Type} [DecidableEq K] (m : LruMap K V) :
    LruOp K V → LruMap K V
  | LruOp.get k => (m.get k).2
  | LruOp.set k v => m.set k v
  | LruOp.del k => m.del k
  | LruOp.clear => m.clear
  | LruOp.has _ => m
  | LruOp.size => m

/-- Run an operation sequence on a freshly constructed map of capacity n. -/
def lruRunImpl {K V : Type} [DecidableEq K] (n : ℤ) (ops : List (LruOp K V)) :
    LruMap K V :=
  ops.foldl lruStepImpl ⟨n, []⟩

/-- The key list of a map, oldest-touch first. -/
def keysOf {K V : Type} (m : LruMap K V) : List K := m.entries.map Prod.fst

/-- Modelled from the spec: mark k most-recently-touched in a recency list
(least-recently-used first). -/
def specTouch {K : Type} [DecidableEq K] (l : List K) (k : K) : List K :=
  l.filter (fun x => decide (¬x = k)) ++ [k]

/-- Modelled from the spec: evict least-recently-used keys while over
capacity. -/
def specEvict {K : Type} : List K → ℤ → List K
  | [], _ => []
  | x :: xs, cap =>
      if cap < ((x :: xs).length : ℤ) then specEvict xs cap else x :: xs

/-- Modelled from the spec (section 4.3): the reference recency model.  The
surviving keys are the capacity-many most-recently-touched (by get-hit or
set) distinct keys still present; get on a present key marks it
most-recently-used, set inserts/overwrites at the most-recent end and
evicts the least-recently-used beyond capacity, delete/clear remove, and
has/size have no recency side effect. -/
def lruStepSpec {K V : Type} [DecidableEq K] (n : ℤ) (l : List K) :
    LruOp K V → List K
  | LruOp.get k => if k ∈ l then specTouch l k else l
  | LruOp.set k _ => specEvict (specTouch l k) n
  | LruOp.del k => l.filter (fun x => decide (¬x = k))
  | LruOp.clear => []
  | LruOp.has _ => l
  | LruOp.size => l

/-- Run the reference recency model from empty. -/
def lruRunSpec {K V : Type} [DecidableEq K] (n : ℤ) (ops : List (LruOp K V)) :
    List K :=
  ops.foldl (lruStepSpec n) []

/-! ## Theorems -/

/-- C4: applyNumberTransforms applies the optional stages in the fixed
order map, abs, scale, offset, min (lower clamp), max (upper clamp),
clamp, round.  Conjunct 1 pins the whole post-map chain as one arithmetic
expression in that order; conjunct 2 shows the map stage runs first
(sqrt of a negative input is clamped to 0 before scale/offset); conjunct
3 is the concrete contract instance: input 10 with scale 2 and offset 5
gives 25 (ax+b), not 30. -/
theorem applyNumberTransforms_fixed_order (env : JsEnv)
    (x s o mn mx lo hi : ℚ) (r : ℤ) :
    (applyNumberTransforms env (JValue.num (JSNum.num x))
        { entity := "sensor.x", abs := true, scale := some s, offset := some o,
          min := some mn, max := some mx, clamp := some (lo, hi),
          round := some r } =
      JValue.num (JSNum.num
        ((⌊min hi (max lo (min mx (max mn (|x| * s + o)))) * 10 ^ r + 1/2⌋ : ℤ) /
          (10 : ℚ) ^ r))) ∧
    (applyNumberTransforms env (JValue.num (JSNum.num (-4)))
        { entity := "sensor.x", map := some TokenMap.sqrt, scale := some s,
          offset := some o } =
      JValue.num (JSNum.num (0 * s + o))) ∧
    (applyNumberTransforms env (JValue.num (JSNum.num 10))
        { entity := "sensor.x", scale := some 2, offset := some 5 } =
      JValue.num (JSNum.num 25)) := by
  have h10 : ((10 : ℚ) ^ r) ≠ 0 := by positivity
  refine ⟨?_, ?_, ?_⟩
  · simp [applyNumberTransforms, JSNum.jsAbs, JSNum.mul, JSNum.add,
      JSNum.jsMax, JSNum.jsMin, JSNum.jsRound, JSNum.div, h10]
  · norm_num [applyNumberTransforms, JSNum.mul, JSNum.add]
  · norm_num [applyNumberTransforms, JSNum.mul, JSNum.add]

/-- C5: evaluation of the shipped code at the failing input.  A finite
input whose log map stage is non-finite (log(-5 + 1) = log(-4) = NaN) does
NOT fall back to the configured default: applyNumberTransforms returns NaN
for every environment and every configured default.  (The guard
`if (!Number.isFinite(x)) return token.$default ?? 0` present after the
log stage in the earlier monolithic version of the card was dropped from
src/tokens/transforms.ts.) -/
theorem applyNumberTransforms_log_nan_propagates (env : JsEnv) (d : Option JValue) :
    applyNumberTransforms env (JValue.num (JSNum.num (-5)))
      { entity := "sensor.x", default := d, map := some (TokenMap.log none none) } =
      JValue.num JSNum.nan := by
  norm_num [applyNumberTransforms, jsLog, JSNum.div]

/-- C7 counterexample: a numeric history end below 1e12 is NOT multiplied
by 1000 by parseTime — parseTime(5, fallback) is 5, not 5000. -/
theorem parseTime_no_seconds_scaling :
    parseTime trivEnv (some (Sum.inl 5)) 0 = 5 ∧
      ¬parseTime trivEnv (some (Sum.inl 5)) 0 = 5000 := by
  constructor
  · rfl
  · norm_num [parseTime]

/-- C7 (amended): time-range derivation parses a numeric start/end as
epoch milliseconds and uses it unchanged — no seconds auto-scaling; the
below-1e12 times-1000 scaling applies only to snapshot timestamps during
history response decoding (histTimestampMs). -/
theorem parseTime_numeric_unchanged (env : JsEnv) (q fb : ℚ) (x : Snapshot)
    (hq : q < 1000000000000) (hx : x.last_changed = some (Sum.inl q)) :
    parseTime env (some (Sum.inl q)) fb = q ∧
      histTimestampMs env x = some (q * 1000) := by
  refine ⟨rfl, ?_⟩
  simp [histTimestampMs, hx, hq]

/-- C7 amended-claim witness at a concrete input. -/
theorem parseTime_numeric_unchanged_witness :
    (5 : ℚ) < 1000000000000 ∧
      parseTime trivEnv (some (Sum.inl 5)) 0 = 5 ∧
      histTimestampMs trivEnv { last_changed := some (Sum.inl 5) } = some 5000 := by
  have h := parseTime_numeric_unchanged trivEnv 5 0
    { last_changed := some (Sum.inl 5) } (by norm_num) rfl
  exact ⟨by norm_num, h.1, by rw [h.2]; norm_num⟩

/-- C8: evaluation of the shipped scan functions at the failing input.  For
an option tree whose only time-series node is a `$statistics` generator
(cache_seconds 120), the shipped containsHistoryToken returns false and
minHistoryCacheSecondsInOptionTree ignores the node and returns the
fallback — although the node IS a statistics generator, the repository's
own tests (tests/tokens-guards.test.ts) assert containsHistoryToken is
true on `$statistics` nodes, and the README says multiple
`$history`/`$statistics` blocks share the minimum cache window.  A
`$history` node, by contrast, is seen by both functions. -/
theorem containsHistoryToken_misses_statistics :
    (containsHistoryToken
        (Node.obj none
          (some { entities := some [EntitySpec.bare "sensor.x"],
                  period := some "day", cache_seconds := some 120 })
          none none []) = false) ∧
    (isStatisticsGenerator
        (Node.obj none
          (some { entities := some [EntitySpec.bare "sensor.x"],
                  period := some "day", cache_seconds := some 120 })
          none none []) = true) ∧
    (minHistoryCacheSecondsInOptionTree
        (Node.obj none
          (some { entities := some [EntitySpec.bare "sensor.x"],
                  period := some "day", cache_seconds := some 120 })
          none none []) 30 = 30) ∧
    (containsHistoryToken
        (Node.obj (some { cache_seconds := some 120 }) none none none []) = true) ∧
    (minHistoryCacheSecondsInOptionTree
        (Node.obj (some { cache_seconds := some 120 }) none none none []) 30 = 120) := by
  refine ⟨rfl, rfl, rfl, rfl, ?_⟩
  norm_num [minHistoryCacheSecondsInOptionTree, minCacheWalk, optMin]

/-- C9 counterexample: with the statistics transport missing (a hass with
no callWS capability) and a cold cache, fetchStatistics does not resolve to
an empty array — it throws (models a rejected promise): the result is the
tagged error, not Except.ok of anything. -/
theorem fetchStatistics_no_callWS_throws :
    (fetchStatistics trivEnv (fun _ => "") { states := [], callWS := none }
        {} [] [] 0).result =
      Except.error
        "[echarts-raw-card] $statistics requires hass.callWS — ensure HA version >= 2023.8" := by
  rfl

/-- C9 (amended): when no statistics fetcher is supplied to the resolver, a
`$statistics` node resolves to an empty array and the rest of the tree
resolves normally (conjuncts 1 and 2); but when a fetcher backed by
fetchStatistics is used with a hass lacking callWS (and the cache is cold),
fetchStatistics throws instead of resolving to an empty array
(conjunct 3). -/
theorem resolver_statistics_graceful_degradation {σ : Type} (env : JsEnv)
    (sj : JValue → String) (hass0 : Option Hass)
    (fh : HistorySpec → σ → Except String JValue × σ)
    (sspec : StatsSpec) (dOpt : Option DataSpec) (tOpt : Option TokenObject)
    (fields : List (String × Node)) (st : RunSt σ) (v : JValue)
    (states : List (String × HassEntity)) (spec : StatsSpec)
    (w : List String) (now : ℚ) :
    (deepResolve env hass0 fh none (Node.obj none (some sspec) dOpt tOpt fields) st =
      (Except.ok (JValue.arr []), ⟨addWatched st.watched sspec.entities, st.fx⟩)) ∧
    (deepResolve env hass0 fh none
        (Node.arr [Node.obj none (some sspec) none none [], Node.prim v]) st =
      (Except.ok (JValue.arr [JValue.arr [], v]),
        ⟨addWatched st.watched sspec.entities, st.fx⟩)) ∧
    ((fetchStatistics env sj { states := states, callWS := none } spec w [] now).result =
      Except.error
        "[echarts-raw-card] $statistics requires hass.callWS — ensure HA version >= 2023.8") := by
  exact ⟨rfl, rfl, rfl⟩

/-- C10: reserved-key precedence of the resolver's dispatch.  With
instrumented fetchers that count their invocations, an object node carrying
several reserved generator keys is resolved by exactly one branch, in the
fixed order `$history` over `$statistics` over `$data` over `$entity`: the
winning branch's fetcher (if any) runs exactly once, the other fetchers run
zero times, only the winning generator's entities are registered, and the
node's own content (including the losing reserved keys) does not appear in
the output. -/
theorem resolver_reserved_key_precedence (env : JsEnv) (hass0 : Option Hass)
    (f : HistorySpec → JValue) (g : StatsSpec → JValue)
    (h : HistorySpec) (s : StatsSpec) (d : DataSpec) (t : TokenObject)
    (sOpt : Option StatsSpec) (dOpt : Option DataSpec) (tOpt : Option TokenObject)
    (fields : List (String × Node)) (w : List String) :
    (deepResolve env hass0
        (fun sp (c : ℕ × ℕ) => (Except.ok (f sp), (c.1 + 1, c.2)))
        (some (fun sp (c : ℕ × ℕ) => (Except.ok (g sp), (c.1, c.2 + 1))))
        (Node.obj (some h) sOpt dOpt tOpt fields) ⟨w, (0, 0)⟩ =
      (Except.ok (f h), ⟨addWatched w h.entities, (1, 0)⟩)) ∧
    (deepResolve env hass0
        (fun sp (c : ℕ × ℕ) => (Except.ok (f sp), (c.1 + 1, c.2)))
        (some (fun sp (c : ℕ × ℕ) => (Except.ok (g sp), (c.1, c.2 + 1))))
        (Node.obj none (some s) dOpt tOpt fields) ⟨w, (0, 0)⟩ =
      (Except.ok (g s), ⟨addWatched w s.entities, (0, 1)⟩)) ∧
    (deepResolve env hass0
        (fun sp (c : ℕ × ℕ) => (Except.ok (f sp), (c.1 + 1, c.2)))
        (some (fun sp (c : ℕ × ℕ) => (Except.ok (g sp), (c.1, c.2 + 1))))
        (Node.obj none none (some d) tOpt fields) ⟨w, (0, 0)⟩ =
      (Except.ok (resolveData env hass0 d), ⟨addWatched w d.entities, (0, 0)⟩)) ∧
    (deepResolve env hass0
        (fun sp (c : ℕ × ℕ) => (Except.ok (f sp), (c.1 + 1, c.2)))
        (some (fun sp (c : ℕ × ℕ) => (Except.ok (g sp), (c.1, c.2 + 1))))
        (Node.obj none none none (some t) fields) ⟨w, (0, 0)⟩ =
      (Except.ok (resolveEntityToken env hass0 t), ⟨setAdd w t.entity, (0, 0)⟩)) := by
  exact ⟨rfl, rfl, rfl, rfl⟩

theorem map_fst_removeKey {K V : Type} [DecidableEq K] (l : List (K × V)) (k : K) :
    (LruMap.removeKey l k).map Prod.fst =
      (l.map Prod.fst).filter (fun x => decide (¬x = k)) := by
  induction l with
  | nil => rfl
  | cons p t ih =>
      by_cases h : p.1 = k <;>
        simp [LruMap.removeKey, List.filter_cons, h] at ih ⊢ <;> exact ih

theorem map_fst_evict {K V : Type} [DecidableEq K] (l : List (K × V)) (cap : ℤ) :
    (LruMap.evict l cap).map Prod.fst = specEvict (l.map Prod.fst) cap := by
  induction l with
  | nil => rfl
  | cons p t ih =>
      simp only [LruMap.evict, specEvict, List.map_cons, List.length_cons,
        List.length_map]
      split <;> simp [ih]

theorem findVal_none_iff {K V : Type} [DecidableEq K] (m : LruMap K V) (k : K) :
    m.findVal k = none ↔ k ∉ keysOf m := by
  unfold LruMap.findVal keysOf
  rw [Option.map_eq_none', List.find?_eq_none]
  constructor
  · intro h hmem
    rcases List.mem_map.mp hmem with ⟨p, hp, hfst⟩
    exact absurd (by simpa using hfst) (by simpa using h p hp)
  · intro h p hp hpk
    exact h (List.mem_map.mpr ⟨p, hp, by simpa using hpk⟩)

theorem evict_length_le {K V : Type} [DecidableEq K] (l : List (K × V)) (cap : ℤ)
    (hcap : 0 ≤ cap) : ((LruMap.evict l cap).length : ℤ) ≤ cap := by
  induction l with
  | nil => simpa [LruMap.evict]
  | cons p t ih =>
      simp only [LruMap.evict]
      split
      · exact ih
      · omega

theorem specEvict_of_le {K : Type} (l : List K) (cap : ℤ)
    (h : (l.length : ℤ) ≤ cap) : specEvict l cap = l := by
  cases l with
  | nil => rfl
  | cons x t =>
      simp only [specEvict]
      rw [if_neg (by omega)]

theorem removeKey_length_lt {K V : Type} [DecidableEq K] (l : List (K × V)) (k : K)
    (h : k ∈ l.map Prod.fst) :
    (LruMap.removeKey l k).length < l.length := by
  induction l with
  | nil => simp at h
  | cons p t ih =>
      rw [LruMap.removeKey, List.filter_cons]
      by_cases hp : p.1 = k
      · rw [if_neg (by simp [hp])]
        have hle := List.length_filter_le (fun q : K × V => decide (¬q.1 = k)) t
        simpa using Nat.lt_succ_of_le hle
      · rw [if_pos (by simp [hp])]
        simp only [List.map_cons, List.mem_cons] at h
        rcases h with h | h
        · exact absurd h.symm hp
        · have := ih h
          rw [LruMap.removeKey] at this
          simpa using Nat.succ_lt_succ this

theorem removeKey_of_not_mem {K V : Type} [DecidableEq K] (l : List (K × V)) (k : K)
    (h : k ∉ l.map Prod.fst) : LruMap.removeKey l k = l := by
  induction l with
  | nil => rfl
  | cons p t ih =>
      simp only [List.map_cons, List.mem_cons, not_or] at h
      have hp : ¬p.1 = k := fun hk => h.1 hk.symm
      rw [LruMap.removeKey, List.filter_cons, if_pos (by simp [hp])]
      have ht := ih h.2
      rw [LruMap.removeKey] at ht
      rw [ht]

theorem lru_any_iff {K V : Type} [DecidableEq K] (l : List (K × V)) (k : K) :
    l.any (fun p => decide (p.1 = k)) = true ↔ k ∈ l.map Prod.fst := by
  rw [List.any_eq_true]
  constructor
  · rintro ⟨p, hp, hpk⟩
    exact List.mem_map.mpr ⟨p, hp, by simpa using hpk⟩
  · intro h
    rcases List.mem_map.mp h with ⟨p, hp, hfst⟩
    exact ⟨p, hp, by simpa using hfst⟩

theorem keysOf_mk {K V : Type} (cap : ℤ) (l : List (K × V)) :
    keysOf (⟨cap, l⟩ : LruMap K V) = l.map Prod.fst := rfl

theorem lruStep_keys {K V : Type} [DecidableEq K] (n : ℤ) (m : LruMap K V)
    (hms : m.maxSize = n) (op : LruOp K V) :
    (lruStepImpl m op).maxSize = n ∧
      keysOf (lruStepImpl m op) = lruStepSpec (V := V) n (keysOf m) op := by
  cases op with
  | get k =>
      cases hfind : m.findVal k with
      | none =>
          have hmem : k ∉ keysOf m := (findVal_none_iff m k).mp hfind
          constructor
          · simp [lruStepImpl, LruMap.get, hfind, hms]
          · simp [lruStepImpl, LruMap.get, hfind, lruStepSpec, hmem]
      | some v =>
          have hmem : k ∈ keysOf m := by
            by_contra hmem
            rw [(findVal_none_iff m k).mpr hmem] at hfind
            exact Option.noConfusion hfind
          constructor
          · simp [lruStepImpl, LruMap.get, hfind, hms]
          · simp only [lruStepImpl, LruMap.get, hfind]
            rw [lruStepSpec, if_pos hmem, keysOf_mk, List.map_append,
              map_fst_removeKey, specTouch]
            rfl
  | set k v =>
      constructor
      · simp [lruStepImpl, LruMap.set, hms]
      · simp only [lruStepImpl, LruMap.set]
        rw [lruStepSpec, keysOf_mk, map_fst_evict, List.map_append, hms]
        by_cases hk : k ∈ keysOf m
        · rw [if_pos ((lru_any_iff m.entries k).mpr hk), map_fst_removeKey, specTouch]
          rfl
        · rw [if_neg (fun hc => hk ((lru_any_iff m.entries k).mp hc)), specTouch]
          have hself : (keysOf m).filter (fun x => decide (¬x = k)) = keysOf m := by
            have h1 := map_fst_removeKey m.entries k
            rw [removeKey_of_not_mem m.entries k hk] at h1
            exact h1.symm
          rw [hself]
          rfl
  | del k =>
      constructor
      · simp [lruStepImpl, LruMap.del, hms]
      · simp only [lruStepImpl, LruMap.del]
        rw [lruStepSpec, keysOf_mk, map_fst_removeKey]
        rfl
  | clear => exact ⟨hms, rfl⟩
  | has k => exact ⟨hms, rfl⟩
  | size => exact ⟨hms, rfl⟩

theorem lruStep_size {K V : Type} [DecidableEq K] (n : ℤ) (hn : 1 ≤ n)
    (m : LruMap K V) (hms : m.maxSize = n) (hlen : (m.entries.length : ℤ) ≤ n)
    (op : LruOp K V) : (((lruStepImpl m op).entries.length : ℤ)) ≤ n := by
  cases op with
  | get k =>
      cases hfind : m.findVal k with
      | none => simpa [lruStepImpl, LruMap.get, hfind] using hlen
      | some v =>
          have hmem : k ∈ keysOf m := by
            by_contra hmem
            rw [(findVal_none_iff m k).mpr hmem] at hfind
            exact Option.noConfusion hfind
          have hlt := removeKey_length_lt m.entries k hmem
          simp only [lruStepImpl, LruMap.get, hfind]
          rw [List.length_append, List.length_singleton]
          push_cast
          omega
  | set k v =>
      simp only [lruStepImpl, LruMap.set]
      rw [hms]
      exact evict_length_le _ n (by omega)
  | del k =>
      have := List.length_filter_le (fun q : K × V => decide (¬q.1 = k)) m.entries
      simp only [lruStepImpl, LruMap.del, LruMap.removeKey]
      omega
  | clear =>
      simp only [lruStepImpl, LruMap.clear, List.length_nil, Nat.cast_zero]
      omega
  | has k => exact hlen
  | size => exact hlen

theorem lruRun_aux {K V : Type} [DecidableEq K] (n : ℤ) (hn : 1 ≤ n)
    (ops : List (LruOp K V)) :
    ∀ (m : LruMap K V), m.maxSize = n → (m.entries.length : ℤ) ≤ n →
      (ops.foldl lruStepImpl m).maxSize = n ∧
      ((ops.foldl lruStepImpl m).entries.length : ℤ) ≤ n ∧
      keysOf (ops.foldl lruStepImpl m) = ops.foldl (lruStepSpec (V := V) n) (keysOf m) := by
  induction ops with
  | nil => exact fun m h1 h2 => ⟨h1, h2, rfl⟩
  | cons op rest ih =>
      intro m h1 h2
      have hstep := lruStep_keys n m h1 op
      have hsize := lruStep_size n hn m h1 h2 op
      have hrest := ih (lruStepImpl m op) hstep.1 hsize
      simp only [List.foldl_cons]
      exact ⟨hrest.1, hrest.2.1, by rw [hrest.2.2, hstep.2]⟩

/-- C2: the LruMap invariant.  For capacity n with 1 ≤ n, after any finite
operation sequence run from a fresh map: the size never exceeds n, and the
key list (oldest-touch first) coincides with the spec-side recency model —
the surviving keys are exactly the n most-recently-touched (by get-hit or
set) distinct keys still present, get marks a present key most recently
used, set inserts at the most-recent end evicting the least-recently-used
beyond capacity, and has/size leave the state untouched.  Construction
with capacity below 1 fails with the configuration error. -/
theorem lruMap_capacity_invariant (K V : Type) [DecidableEq K] (n : ℤ)
    (hn : 1 ≤ n) (ops : List (LruOp K V)) :
    ((lruRunImpl n ops : LruMap K V).entries.length : ℤ) ≤ n ∧
      keysOf (lruRunImpl n ops) = lruRunSpec (V := V) n ops ∧
      ∀ cap : ℤ, cap < 1 →
        LruMap.make K V cap = Except.error "LruMap maxSize must be >= 1" := by
  have h := lruRun_aux n hn ops ⟨n, []⟩ rfl (by simp only [List.length_nil, Nat.cast_zero]; omega)
  exact ⟨h.2.1, h.2.2, fun cap hcap => by rw [LruMap.make, if_pos hcap]⟩

/-- C2 witness: capacity 3; insert 1,2,3, read 1, insert 4 — the bound and
the model equality follow from the theorem, and the surviving keys are
3, 1, 4 (key 2 was evicted, not the re-read key 1). -/
theorem lruMap_capacity_invariant_witness :
    ((lruRunImpl 3 [LruOp.set 1 10, LruOp.set 2 20, LruOp.set 3 30,
        LruOp.get 1, LruOp.set 4 40] : LruMap ℕ ℕ).entries.length : ℤ) ≤ 3 ∧
      keysOf (lruRunImpl (V := ℕ) 3 [LruOp.set 1 10, LruOp.set 2 20,
        LruOp.set 3 30, LruOp.get 1, LruOp.set 4 40]) =
        lruRunSpec (V := ℕ) 3 [LruOp.set 1 10, LruOp.set 2 20, LruOp.set 3 30,
          LruOp.get 1, LruOp.set 4 40] ∧
      lruRunSpec (V := ℕ) 3 [LruOp.set 1 10, LruOp.set 2 20, LruOp.set 3 30,
        LruOp.get 1, LruOp.set 4 40] = [3, 1, 4] := by
  have h := lruMap_capacity_invariant ℕ ℕ 3 (by norm_num)
    [LruOp.set 1 10, LruOp.set 2 20, LruOp.set 3 30, LruOp.get 1, LruOp.set 4 40]
  exact ⟨h.1, h.2.1, by decide⟩

theorem dsEmit_cons_isSome {α : Type} (num : α → JSNum) (ofNum : ℚ → α)
    (method : DsMethod) (b0 : ℚ × α) (bs : List (ℚ × α)) :
    (dsEmit num ofNum method (b0 :: bs)).isSome = true := by
  cases method
  · simp only [dsEmit]
    split <;> rfl
  · rfl

theorem dsEmit_eq_none_iff {α : Type} (num : α → JSNum) (ofNum : ℚ → α)
    (method : DsMethod) (b : List (ℚ × α)) :
    dsEmit num ofNum method b = none ↔ b = [] := by
  cases b with
  | nil => simp [dsEmit]
  | cons b0 bs =>
      constructor
      · intro hnone
        have h := dsEmit_cons_isSome num ofNum method b0 bs
        rw [hnone] at h
        exact Bool.noConfusion h
      · intro h
        exact absurd h (List.cons_ne_nil b0 bs)

theorem dsEmit_fst {α : Type} (num : α → JSNum) (ofNum : ℚ → α)
    (method : DsMethod) (b0 : ℚ × α) (bs : List (ℚ × α)) :
    (dsEmit num ofNum method (b0 :: bs)).map Prod.fst =
      some ((b0 :: bs).getLast (by simp)).1 := by
  cases method
  · simp only [dsEmit, apply_ite (Option.map Prod.fst)]
    split <;> rfl
  · rfl

theorem dsOut_length_le {α : Type} (num : α → JSNum) (ofNum : ℚ → α)
    (p0 : ℚ × α) (rest : List (ℚ × α)) (M : ℕ) (method : DsMethod) :
    (dsOut num ofNum p0 rest M method).length ≤ M := by
  rw [dsOut]
  exact le_trans (List.length_filterMap_le _ _) (le_of_eq (List.length_range M))

theorem dsOut_ne_nil {α : Type} (num : α → JSNum) (ofNum : ℚ → α)
    (p0 : ℚ × α) (rest : List (ℚ × α)) (M : ℕ) (method : DsMethod)
    (hM : 0 < M) : dsOut num ofNum p0 rest M method ≠ [] := by
  intro hnil
  rw [dsOut, List.filterMap_eq_nil_iff] at hnil
  have h0 := hnil 0 (List.mem_range.mpr hM)
  rw [dsEmit_eq_none_iff] at h0
  have hp0 : p0 ∈ (p0 :: rest).filter
      (fun p => decide (dsBidx p0.1
        (max 1 (((p0 :: rest).getLast (by simp)).1 - p0.1) / (M : ℚ)) M p =
          ((0 : ℕ) : ℤ))) := by
    rw [List.mem_filter]
    refine ⟨List.mem_cons_self _ _, ?_⟩
    have hb : dsBidx p0.1
        (max 1 (((p0 :: rest).getLast (by simp)).1 - p0.1) / (M : ℚ)) M p0 = 0 := by
      rw [dsBidx]
      norm_num
      omega
    simp [hb]
  rw [h0] at hp0
  simp at hp0


theorem downsampleCore_length_le {α : Type} (num : α → JSNum) (ofNum : ℚ → α)
    (p0 : ℚ × α) (rest : List (ℚ × α)) (M : ℕ) (method : DsMethod) :
    (downsampleCore num ofNum p0 rest M method).length ≤ M + 1 := by
  simp only [downsampleCore]
  cases hlast : (dsOut num ofNum p0 rest M method).getLast? with
  | none =>
      exact le_trans (dsOut_length_le num ofNum p0 rest M method) (Nat.le_succ M)
  | some ol =>
      dsimp only
      by_cases heq : ol.1 = ((p0 :: rest).getLast (by simp)).1
      · rw [if_pos heq]
        exact le_trans (dsOut_length_le num ofNum p0 rest M method) (Nat.le_succ M)
      · rw [if_neg heq, List.length_append, List.length_singleton]
        exact Nat.add_le_add_right (dsOut_length_le num ofNum p0 rest M method) 1

theorem downsampleCore_getLast_fst {α : Type} (num : α → JSNum) (ofNum : ℚ → α)
    (p0 : ℚ × α) (rest : List (ℚ × α)) (M : ℕ) (method : DsMethod) (hM : 0 < M) :
    (downsampleCore num ofNum p0 rest M method).getLast?.map Prod.fst =
      some ((p0 :: rest).getLast (by simp)).1 := by
  simp only [downsampleCore]
  cases hlast : (dsOut num ofNum p0 rest M method).getLast? with
  | none =>
      exact absurd (List.getLast?_eq_none_iff.mp hlast)
        (dsOut_ne_nil num ofNum p0 rest M method hM)
  | some ol =>
      dsimp only
      by_cases heq : ol.1 = ((p0 :: rest).getLast (by simp)).1
      · rw [if_pos heq, hlast, Option.map_some', heq]
      · rw [if_neg heq, List.getLast?_concat, Option.map_some']

/-- C3: the downsample contract.  Conjunct 1 (no-op): when the input is
already within budget (length at most maxPoints) or maxPoints is at most
1, downsample returns the input list unchanged.  Conjunct 2 (bound): for a
timestamp-sorted input with 1 < maxPoints < length, the output has at most
maxPoints + 1 points and the last output point's timestamp equals the last
input point's timestamp. -/
theorem downsample_budget_and_last (α : Type) (num : α → JSNum) (ofNum : ℚ → α)
    (points : List (ℚ × α)) (M : ℕ) (method : DsMethod) :
    ((points.length ≤ M ∨ M ≤ 1) → downsample num ofNum points M method = points) ∧
    (List.Sorted (fun a b : ℚ × α => a.1 ≤ b.1) points → 1 < M →
      M < points.length →
      (downsample num ofNum points M method).length ≤ M + 1 ∧
      (downsample num ofNum points M method).getLast?.map Prod.fst =
        points.getLast?.map Prod.fst) := by
  constructor
  · intro h
    rw [downsample.eq_def, if_pos h]
  · intro hsort hM hL
    have hcond : ¬(points.length ≤ M ∨ M ≤ 1) := by
      push_neg
      exact ⟨hL, hM⟩
    cases points with
    | nil => simp at hL
    | cons p0 rest =>
        rw [downsample.eq_def, if_neg hcond]
        dsimp only
        refine ⟨downsampleCore_length_le num ofNum p0 rest M method, ?_⟩
        rw [downsampleCore_getLast_fst num ofNum p0 rest M method (by omega),
          List.getLast?_eq_getLast (p0 :: rest) (by simp), Option.map_some']

/-- C3 witness: 5 sorted points, maxPoints 2, method last — both the no-op
branch (maxPoints 10) and the bound branch (maxPoints 2) at concrete
inputs. -/
theorem downsample_budget_and_last_witness :
    (downsample (fun q : ℚ => JSNum.num q) (fun q => q)
        [(1, 5), (2, 6), (3, 7), (4, 8), (5, 9)] 10 DsMethod.last =
      [(1, 5), (2, 6), (3, 7), (4, 8), (5, 9)]) ∧
    ((downsample (fun q : ℚ => JSNum.num q) (fun q => q)
        [(1, 5), (2, 6), (3, 7), (4, 8), (5, 9)] 2 DsMethod.last).length ≤ 3 ∧
      (downsample (fun q : ℚ => JSNum.num q) (fun q => q)
          [(1, 5), (2, 6), (3, 7), (4, 8), (5, 9)] 2 DsMethod.last).getLast?.map
          Prod.fst =
        ([(1, 5), (2, 6), (3, 7), (4, 8), (5, 9)] :
          List (ℚ × ℚ)).getLast?.map Prod.fst) := by
  have h1 := (downsample_budget_and_last ℚ (fun q => JSNum.num q) (fun q => q)
    [(1, 5), (2, 6), (3, 7), (4, 8), (5, 9)] 10 DsMethod.last).1
    (by norm_num)
  have h2 := (downsample_budget_and_last ℚ (fun q => JSNum.num q) (fun q => q)
    [(1, 5), (2, 6), (3, 7), (4, 8), (5, 9)] 2 DsMethod.last).2
    (by norm_num [List.Sorted, List.sorted_cons]) (by norm_num) (by norm_num)
  exact ⟨h1, h2⟩

theorem assocFind_cons {α : Type} (e : String × α) (t : List (String × α))
    (k : String) :
    assocFind (e :: t) k = if e.1 = k then some e.2 else assocFind t k := by
  by_cases h : e.1 = k <;> simp [assocFind, List.find?_cons, h]

theorem pePush_cons (e : String × List (ℚ × ℚ)) (t : PerEntity) (sid : String)
    (pt : ℚ × ℚ) :
    pePush (e :: t) sid pt =
      (if e.1 = sid then (e.1, e.2 ++ [pt]) else e) :: pePush t sid pt := by
  simp only [pePush, List.map_cons]

theorem assocFind_pePush (pe : PerEntity) (sid : String) (pt : ℚ × ℚ)
    (id : String) :
    assocFind (pePush pe sid pt) id =
      if sid = id then (assocFind pe id).map (fun l => l ++ [pt])
      else assocFind pe id := by
  induction pe with
  | nil => by_cases h : sid = id <;> simp [pePush, assocFind, h]
  | cons e t ih =>
      rw [pePush_cons]
      by_cases hs : e.1 = sid <;> by_cases he : e.1 = id
      · have hsid : sid = id := hs.symm.trans he
        rw [if_pos hs, assocFind_cons, if_pos he, if_pos hsid, assocFind_cons,
          if_pos he, Option.map_some']
      · have hsid : ¬sid = id := fun h => he (hs.trans h)
        rw [if_pos hs, assocFind_cons, if_neg he, ih, if_neg hsid, if_neg hsid,
          assocFind_cons, if_neg he]
      · have hsid : ¬sid = id := fun h => hs (he.trans h.symm)
        rw [if_neg hs, assocFind_cons, if_pos he, if_neg hsid, assocFind_cons,
          if_pos he]
      · rw [if_neg hs, assocFind_cons, if_neg he, ih]
        by_cases hsid : sid = id
        · rw [if_pos hsid, if_pos hsid, assocFind_cons, if_neg he]
        · rw [if_neg hsid, if_neg hsid, assocFind_cons, if_neg he]

theorem assocFind_pePush_isSome (pe : PerEntity) (sid : String) (pt : ℚ × ℚ)
    (x : String) :
    (assocFind (pePush pe sid pt) x).isSome = (assocFind pe x).isSome := by
  rw [assocFind_pePush]
  by_cases h : sid = x
  · rw [if_pos h]
    cases assocFind pe x <;> rfl
  · rw [if_neg h]

theorem assocFind_decodeStep (env : JsEnv) (spec : HistorySpec)
    (aid : Option String) (s : Snapshot) (pe : PerEntity) (id : String)
    (present : String → Bool)
    (hpres : ∀ x, (assocFind pe x).isSome = present x) :
    assocFind (decodeStep env spec aid pe s) id =
      match decodePointOf env spec present id (aid, s) with
      | some pt => (assocFind pe id).map (fun l => l ++ [pt])
      | none => assocFind pe id := by
  cases hsid : histEntityId s <|> aid with
  | none => simp [decodeStep, decodePointOf, hsid]
  | some sid =>
      by_cases hempty : sid = ""
      · simp [decodeStep, decodePointOf, hsid, hempty]
      · cases hfind : assocFind pe sid with
        | none =>
            have hpr : present sid = false := by rw [← hpres, hfind]; rfl
            simp [decodeStep, decodePointOf, hsid, hempty, hfind, hpr]
        | some l =>
            have hpr : present sid = true := by rw [← hpres, hfind]; rfl
            cases hts : histTimestampMs env s with
            | none =>
                simp [decodeStep, decodePointOf, hsid, hempty, hfind, hts, hpr]
            | some ts =>
                cases hco : coerceHistoryPointNumber env (snapshotRaw spec s) sid
                    spec.dflt spec.coerce spec.transforms with
                | none =>
                    simp [decodeStep, decodePointOf, hsid, hempty, hfind, hts,
                      hco, hpr]
                | some n =>
                    by_cases hid : sid = id
                    · subst hid
                      simp [decodeStep, decodePointOf, hsid, hempty, hfind, hts,
                        hco, hpr, assocFind_pePush]
                    · simp [decodeStep, decodePointOf, hsid, hempty, hfind, hts,
                        hco, hpr, assocFind_pePush, hid]

theorem decodeStep_presence (env : JsEnv) (spec : HistorySpec)
    (aid : Option String) (s : Snapshot) (pe : PerEntity) (x : String) :
    (assocFind (decodeStep env spec aid pe s) x).isSome =
      (assocFind pe x).isSome := by
  cases hsid : histEntityId s <|> aid with
  | none => simp [decodeStep, hsid]
  | some sid =>
      by_cases hempty : sid = ""
      · simp [decodeStep, hsid, hempty]
      · cases hfind : assocFind pe sid with
        | none => simp [decodeStep, hsid, hempty, hfind]
        | some l =>
            cases hts : histTimestampMs env s with
            | none => simp [decodeStep, hsid, hempty, hfind, hts]
            | some ts =>
                cases hco : coerceHistoryPointNumber env (snapshotRaw spec s) sid
                    spec.dflt spec.coerce spec.transforms with
                | none => simp [decodeStep, hsid, hempty, hfind, hts, hco]
                | some n =>
                    simp [decodeStep, hsid, hempty, hfind, hts, hco,
                      assocFind_pePush_isSome]

theorem decodeFold (env : JsEnv) (spec : HistorySpec) (aid : Option String)
    (id : String) (present : String → Bool) (l : List Snapshot) :
    ∀ pe : PerEntity, (∀ x, (assocFind pe x).isSome = present x) →
      (∀ x, (assocFind (l.foldl (decodeStep env spec aid) pe) x).isSome =
        present x) ∧
      assocFind (l.foldl (decodeStep env spec aid) pe) id =
        (assocFind pe id).map (fun acc =>
          acc ++ l.filterMap (fun s => decodePointOf env spec present id (aid, s))) := by
  induction l with
  | nil =>
      intro pe hpres
      refine ⟨by simpa using hpres, ?_⟩
      simp only [List.foldl_nil, List.filterMap_nil]
      cases h : assocFind pe id <;> simp [h]
  | cons s rest ih =>
      intro pe hpres
      have hpres2 : ∀ x, (assocFind (decodeStep env spec aid pe s) x).isSome =
          present x :=
        fun x => (decodeStep_presence env spec aid s pe x).trans (hpres x)
      obtain ⟨hp3, heq⟩ := ih (decodeStep env spec aid pe s) hpres2
      refine ⟨hp3, ?_⟩
      rw [List.foldl_cons, heq,
        assocFind_decodeStep env spec aid s pe id present hpres]
      cases hdp : decodePointOf env spec present id (aid, s) with
      | none => simp [List.filterMap_cons, hdp]
      | some pt =>
          cases assocFind pe id <;>
            simp [List.filterMap_cons, hdp, List.append_assoc]

theorem decodeLoop_characterisation (env : JsEnv) (spec : HistorySpec)
    (id : String) (present : String → Bool) (hist : List (List Snapshot)) :
    ∀ pe : PerEntity, (∀ x, (assocFind pe x).isSome = present x) →
      assocFind (decodeLoop env spec hist pe) id =
        (assocFind pe id).map (fun acc =>
          acc ++ (annotateHist hist).filterMap (decodePointOf env spec present id)) := by
  induction hist with
  | nil =>
      intro pe hpres
      cases h : assocFind pe id <;> simp [decodeLoop, annotateHist, h]
  | cons arr rest ih =>
      intro pe hpres
      cases arr with
      | nil =>
          have heq := ih pe hpres
          simp only [decodeLoop, List.foldl_cons] at heq ⊢
          rw [heq]
          simp [annotateHist]
      | cons a0 arest =>
          obtain ⟨hp2, heq2⟩ := decodeFold env spec (histEntityId a0) id present
            (a0 :: arest) pe hpres
          have heq3 := ih ((a0 :: arest).foldl
            (decodeStep env spec (histEntityId a0)) pe) hp2
          simp only [decodeLoop, List.foldl_cons] at heq2 heq3 ⊢
          rw [heq3, heq2]
          cases h : assocFind pe id <;>
            simp [annotateHist, List.filterMap_append, List.append_assoc, h,
              List.filterMap_cons, List.filterMap_map, Function.comp] <;>
            cases decodePointOf env spec present id (histEntityId a0, a0) <;>
            simp [Function.comp_def]

theorem assocFind_peInit (ids : List String) (x : String) :
    assocFind (peInit ids) x = if x ∈ ids then some [] else none := by
  induction ids with
  | nil => simp [peInit, assocFind]
  | cons i t ih =>
      simp only [peInit, List.map_cons]
      rw [assocFind_cons]
      by_cases h : i = x
      · rw [if_pos h, if_pos (by rw [← h]; exact List.mem_cons_self i t)]
      · rw [if_neg h]
        rw [show assocFind (t.map fun j => (j, [])) x =
          if x ∈ t then some [] else none from ih]
        by_cases hm : x ∈ t
        · rw [if_pos hm, if_pos (List.mem_cons_of_mem _ hm)]
        · rw [if_neg hm, if_neg (by
            intro hc
            rcases List.mem_cons.mp hc with hc | hc
            · exact h hc.symm
            · exact hm hc)]

theorem assocFind_peInit_isSome (ids : List String) (x : String) :
    (assocFind (peInit ids) x).isSome = decide (x ∈ ids) := by
  rw [assocFind_peInit]
  by_cases h : x ∈ ids <;> simp [h]

/-- C6: history decoding discards exactly the snapshots that fail.  The
decode loop's output for a requested entity id equals a filterMap over the
annotated response snapshots, where a snapshot contributes `none` — and
hence no point at all — unless its resolved id is that (present, non-empty)
entity, a timestamp resolves, and coerceHistoryPointNumber returns a finite
number (conjunct 1; all emitted values are finite rationals by type).
Conjunct 2: whenever coerceHistoryPointNumber returns no value for a
snapshot that resolves to this entity, that snapshot contributes nothing —
no NaN or substitute value is injected. -/
theorem history_decode_discards_uncoercible (env : JsEnv) (spec : HistorySpec)
    (hist : List (List Snapshot)) (entityIds : List String) (id : String)
    (hmem : id ∈ entityIds) :
    assocFind (decodeLoop env spec hist (peInit entityIds)) id =
      some ((annotateHist hist).filterMap
        (decodePointOf env spec (fun x => decide (x ∈ entityIds)) id)) ∧
    (∀ aid : Option String, ∀ s : Snapshot,
      (histEntityId s <|> aid) = some id →
      coerceHistoryPointNumber env (snapshotRaw spec s) id spec.dflt spec.coerce
        spec.transforms = none →
      decodePointOf env spec (fun x => decide (x ∈ entityIds)) id (aid, s) = none) := by
  constructor
  · have h := decodeLoop_characterisation env spec id
      (fun x => decide (x ∈ entityIds)) hist (peInit entityIds)
      (fun x => assocFind_peInit_isSome entityIds x)
    rw [h, assocFind_peInit, if_pos hmem, Option.map_some', List.nil_append]
  · intro aid s hsid hco
    simp only [decodePointOf, hsid]
    by_cases h1 : id = ""
    · simp [h1]
    · rw [if_neg h1]
      by_cases h2 : decide (id ∈ entityIds) = false
      · rw [if_pos h2]
      · rw [if_neg h2, if_pos trivial]
        cases hts : histTimestampMs env s <;> simp [hts, hco]

/-- C6 witness: one response array for sensor.x with one good snapshot
(numeric state 42) and one snapshot whose value fails numeric coercion
after the pipeline (state "unavailable" with a non-numeric default) — the
decoded series keeps only the good point; the bad snapshot is discarded
entirely. -/
theorem history_decode_discards_uncoercible_witness :
    assocFind
        (decodeLoop trivEnv { dflt := some (JValue.str "bad") }
          [[{ entity_id := some "sensor.x",
              state := some (JValue.num (JSNum.num 42)),
              last_changed := some (Sum.inl 1500000000000) },
            { state := some (JValue.str "unavailable"),
              last_changed := some (Sum.inl 1500000000001) }]]
          (peInit ["sensor.x"])) "sensor.x" =
      some [(1500000000000, 42)] := by
  have h := (history_decode_discards_uncoercible trivEnv
    { dflt := some (JValue.str "bad") }
    [[{ entity_id := some "sensor.x",
        state := some (JValue.num (JSNum.num 42)),
        last_changed := some (Sum.inl 1500000000000) },
      { state := some (JValue.str "unavailable"),
        last_changed := some (Sum.inl 1500000000001) }]]
    ["sensor.x"] "sensor.x" (by simp)).1
  rw [h]
  rfl

theorem historyEndMs_stable (env : JsEnv) (spec : HistorySpec) (now1 now2 : ℚ)
    (hend : spec.endTime = none)
    (hbucket : ⌊now1 / (max 1 (spec.cache_seconds.getD 30) * 1000)⌋ =
      ⌊now2 / (max 1 (spec.cache_seconds.getD 30) * 1000)⌋) :
    historyEndMs env spec now2 = historyEndMs env spec now1 := by
  simp [historyEndMs, hend, parseTime, hbucket]

theorem cacheGet_singleton (k : HistoryKey) (e : CacheEntry) :
    cacheGet [(k, e)] k = some e := by
  simp [cacheGet]

/-- C1: a cache hit suppresses the history API query.  For any history
spec with no explicit end, two fetchHistory calls against the same
(initially empty) cache whose nowMs values fall in the same bucketed cache
window and within cache_seconds of each other issue exactly one underlying
API query: the first call queries (called = true), the second does not
(called = false) and returns the first call's cached value. -/
theorem fetchHistory_cache_hit (env : JsEnv) (sj : JValue → String) (hass : Hass)
    (spec : HistorySpec) (w0 : List String)
    (api : ℚ → ℚ → Bool → String → List (List Snapshot)) (now1 now2 : ℚ)
    (hend : spec.endTime = none)
    (hwin : now2 - now1 < spec.cache_seconds.getD 30 * 1000)
    (hbucket : ⌊now1 / (max 1 (spec.cache_seconds.getD 30) * 1000)⌋ =
      ⌊now2 / (max 1 (spec.cache_seconds.getD 30) * 1000)⌋) :
    (fetchHistory env sj hass spec w0 [] now1 api).called = true ∧
    (fetchHistory env sj hass spec
        (fetchHistory env sj hass spec w0 [] now1 api).watched
        (fetchHistory env sj hass spec w0 [] now1 api).cache now2 api).called =
      false ∧
    (fetchHistory env sj hass spec
        (fetchHistory env sj hass spec w0 [] now1 api).watched
        (fetchHistory env sj hass spec w0 [] now1 api).cache now2 api).value =
      (fetchHistory env sj hass spec w0 [] now1 api).value := by
  have hend2 : historyEndMs env spec now2 = historyEndMs env spec now1 :=
    historyEndMs_stable env spec now1 now2 hend hbucket
  have hcache1 : (fetchHistory env sj hass spec w0 [] now1 api).cache =
      [(historyCacheKey sj spec
          (historyStartMs env spec (historyEndMs env spec now1))
          (historyEndMs env spec now1),
        ⟨now1, (fetchHistory env sj hass spec w0 [] now1 api).value,
          now1 + spec.cache_seconds.getD 30 * 1000⟩)] := rfl
  have hlt : now2 < now1 + spec.cache_seconds.getD 30 * 1000 := by linarith
  have h2 : ∀ (w1 : List String) (v1 : JValue),
      fetchHistory env sj hass spec w1
        [(historyCacheKey sj spec
            (historyStartMs env spec (historyEndMs env spec now1))
            (historyEndMs env spec now1),
          ⟨now1, v1, now1 + spec.cache_seconds.getD 30 * 1000⟩)] now2 api =
        ⟨v1,
          [(historyCacheKey sj spec
              (historyStartMs env spec (historyEndMs env spec now1))
              (historyEndMs env spec now1),
            ⟨now1, v1, now1 + spec.cache_seconds.getD 30 * 1000⟩)],
          false,
          (spec.entities.getD []).foldl
            (fun w e => setAdd w (normalizeEntitySpec e).id) w1⟩ := by
    intro w1 v1
    simp only [fetchHistory]
    rw [hend2, cacheGet_singleton]
    dsimp only
    rw [if_pos hlt]
  have h2x := h2 (fetchHistory env sj hass spec w0 [] now1 api).watched
    (fetchHistory env sj hass spec w0 [] now1 api).value
  refine ⟨rfl, ?_, ?_⟩
  · conv_lhs => rw [hcache1]
    rw [h2x]
  · conv_lhs => rw [hcache1]
    rw [h2x]

/-- C1 witness: sensor.x, implicit end, default cache_seconds 30, first
call at t=0 and second at t=1000 (same 30000 ms bucket): one API query. -/
theorem fetchHistory_cache_hit_witness :
    ({ entities := some [EntitySpec.bare "sensor.x"] } : HistorySpec).endTime =
      none ∧
    (fetchHistory trivEnv (fun _ => "") { states := [] }
        { entities := some [EntitySpec.bare "sensor.x"] } [] [] 0
        (fun _ _ _ _ => [])).called = true ∧
    (fetchHistory trivEnv (fun _ => "") { states := [] }
        { entities := some [EntitySpec.bare "sensor.x"] }
        (fetchHistory trivEnv (fun _ => "") { states := [] }
          { entities := some [EntitySpec.bare "sensor.x"] } [] [] 0
          (fun _ _ _ _ => [])).watched
        (fetchHistory trivEnv (fun _ => "") { states := [] }
          { entities := some [EntitySpec.bare "sensor.x"] } [] [] 0
          (fun _ _ _ _ => [])).cache 1000 (fun _ _ _ _ => [])).called = false ∧
    (fetchHistory trivEnv (fun _ => "") { states := [] }
        { entities := some [EntitySpec.bare "sensor.x"] }
        (fetchHistory trivEnv (fun _ => "") { states := [] }
          { entities := some [EntitySpec.bare "sensor.x"] } [] [] 0
          (fun _ _ _ _ => [])).watched
        (fetchHistory trivEnv (fun _ => "") { states := [] }
          { entities := some [EntitySpec.bare "sensor.x"] } [] [] 0
          (fun _ _ _ _ => [])).cache 1000 (fun _ _ _ _ => [])).value =
      (fetchHistory trivEnv (fun _ => "") { states := [] }
        { entities := some [EntitySpec.bare "sensor.x"] } [] [] 0
        (fun _ _ _ _ => [])).value := by
  have h := fetchHistory_cache_hit trivEnv (fun _ => "") { states := [] }
    { entities := some [EntitySpec.bare "sensor.x"] } [] (fun _ _ _ _ => [])
    0 1000 rfl (by norm_num) (by norm_num)
  exact ⟨rfl, h.1, h.2.1, h.2.2⟩
